import Mathlib

/-!
# Level Zero command stream of clDNN (ze_stream.cpp, ze_event.hpp)

A shallow embedding of `cldnn::ze::ze_stream` and of the event classes of
`ze_event.hpp`, followed by the dispatch and offset computation of the
concatenation kernel (`concatenation_kernel_base.cpp`) and the equality of
`ModelInfo` (`model_info.hpp`).

* Device handles are natural numbers, `0` standing for `nullptr`.
* The Level Zero driver is an external library.  It is modelled by the sequence
  of replies it gives (`ze_driver.reply`, indexed by the number of API calls
  issued so far) and by the log of the API calls the code issued
  (`ze_driver.calls`).  Nothing is assumed about the replies.
* `ZE_CHECK` (ze_common.hpp) aborts the enclosing call when the driver reports
  a status other than `ZE_RESULT_SUCCESS`.
* A C++ function that may throw returns a pair: the outcome, and the stream as
  the call left it (member updates made before a throw persist).
* `uint64_t` members are natural numbers; every `++` is taken modulo `2 ^ 64`.
-/

namespace cldnn
namespace ze

/-! ## Driver -/

/-- Level Zero status code; `0` is `ZE_RESULT_SUCCESS`. -/
abbrev ze_result_t := Nat

/-- Event handle of the driver; `0` is `nullptr`. -/
abbrev ze_event_handle_t := Nat

/-- Event pool handle of the driver; `0` is `nullptr`. -/
abbrev ze_event_pool_handle_t := Nat

/-- Kernel handle of the driver. -/
abbrev ze_kernel_handle_t := Nat

/-- The struct `ze_group_count_t` of the driver API (three `uint32_t`). -/
structure ze_group_count_t where
  groupCountX : Nat
  groupCountY : Nat
  groupCountZ : Nat
  deriving DecidableEq, Repr

/-- Values of `ze_command_queue_mode_t` used by the constructor. -/
inductive ze_command_queue_mode_t where
  | ZE_COMMAND_QUEUE_MODE_SYNCHRONOUS
  | ZE_COMMAND_QUEUE_MODE_ASYNCHRONOUS
  deriving DecidableEq, Repr

/-- The driver entry points called by ze_stream.cpp (outside `flush`), with the
arguments the code passes.  For the two append calls `phWaitEvents` is the
content of the array the pointer argument refers to (`[]` for `nullptr`).  The
timeout of `zeEventHostSynchronize` is always `UINT32_MAX` and the size argument
of `zeKernelSetArgumentValue` always `sizeof(void*)`; `pArgValue` is the buffer
pointer the argument refers to. -/
inductive ze_call where
  | zeCommandListCreateImmediate (mode : ze_command_queue_mode_t)
  | zeEventPoolCreate
  | zeEventCreate (hEventPool : ze_event_pool_handle_t)
  | zeKernelSetGroupSize (hKernel : ze_kernel_handle_t) (groupSizeX groupSizeY groupSizeZ : Nat)
  | zeCommandListAppendLaunchKernel (hKernel : ze_kernel_handle_t)
      (launchArgs : ze_group_count_t) (hSignalEvent : ze_event_handle_t)
      (numWaitEvents : Nat) (phWaitEvents : List ze_event_handle_t)
  | zeCommandListAppendBarrier (hSignalEvent : ze_event_handle_t)
      (numWaitEvents : Nat) (phWaitEvents : List ze_event_handle_t)
  | zeEventHostSynchronize (hEvent : ze_event_handle_t)
  | zeKernelSetArgumentValue (hKernel : ze_kernel_handle_t) (argIndex : Nat) (pArgValue : Nat)
  deriving DecidableEq, Repr

/-- What the driver answers to one API call: the status and, for the calls with
an out-parameter, the handle written to it. -/
structure ze_reply where
  status : ze_result_t
  out : Nat
  deriving DecidableEq, Repr

/-- The driver as seen from the stream: its future replies and the calls issued
so far, oldest first, each with the status it returned. -/
structure ze_driver where
  reply : Nat → ze_reply
  calls : List (ze_call × ze_result_t)

/-- Whether an API call appends a command to a command list. -/
def ze_call.is_command : ze_call → Bool
  | .zeCommandListAppendLaunchKernel _ _ _ _ _ => true
  | .zeCommandListAppendBarrier _ _ _ => true
  | _ => false

/-- Whether an API call is a barrier append. -/
def ze_call.is_barrier : ze_call → Bool
  | .zeCommandListAppendBarrier _ _ _ => true
  | _ => false

/-! ## Events (ze_event.hpp) -/

/-- The dynamic type of an object behind an `event::ptr`.
`ze_event` and `ze_events` derive from `ze_base_event`, which holds
`_queue_stamp`; `other` is any event class that does not derive from
`ze_base_event`. -/
inductive event where
  | ze_event (_event_pool : ze_event_pool_handle_t) (_event : ze_event_handle_t)
      (_queue_stamp : Nat)
  | ze_events (_queue_stamp : Nat) (_last_ze_event : ze_event_handle_t)
      (_events : List (Option event))
  | other (tag : Nat)

/-- A shared pointer to an event; `none` is the null pointer. -/
abbrev event_ptr := Option event

/-- The member function `ze_base_event::get_queue_stamp`.  An `other` object has
no such member; the code only calls it after a cast to `ze_base_event`, so the
value given for `other` is never read. -/
def event.get_queue_stamp : event → Nat
  | .ze_event _ _ qs => qs
  | .ze_events qs _ _ => qs
  | .other _ => 0

/-- The virtual `get()`: ze_event.hpp:24 and ze_event.hpp:47.  As for
`get_queue_stamp`, the value given for `other` is never read. -/
def event.get : event → ze_event_handle_t
  | .ze_event _ ev _ => ev
  | .ze_events _ last _ => last
  | .other _ => 0

/-- The cast `dynamic_cast<ze_base_event*>(p.get())`: the object when the pointer
is non-null and its class derives from `ze_base_event`, else null. -/
def as_ze_base_event : event_ptr → Option event
  | some (.ze_event p e qs) => some (.ze_event p e qs)
  | some (.ze_events qs l es) => some (.ze_events qs l es)
  | _ => none

/-- The cast `dynamic_cast<ze_event*>(p.get())`, giving `(handle, stamp)` of
the simple event, else null. -/
def as_ze_event : event_ptr → Option (ze_event_handle_t × Nat)
  | some (.ze_event _ e qs) => some (e, qs)
  | _ => none

/-- The members of a `ze_events` object under construction. -/
structure ze_events_members where
  _queue_stamp : Nat
  _last_ze_event : ze_event_handle_t
  _events : List event_ptr

/-- One visited pointer in `process_events` (ze_event.hpp:64-71 and 74-81):
update stamp and representative when the pointer is a `ze_event` whose stamp
wins, then `push_back`. -/
def ze_events.visit (m : ze_events_members) (p : event_ptr) : ze_events_members :=
  match as_ze_event p with
  | some (h, current_ev_queue_stamp) =>
    if m._queue_stamp = 0 ∨ current_ev_queue_stamp > m._queue_stamp then
      { _queue_stamp := current_ev_queue_stamp, _last_ze_event := h,
        _events := m._events ++ [p] }
    else { m with _events := m._events ++ [p] }
  | none => { m with _events := m._events ++ [p] }

/-- The loop of `ze_events::process_events` (ze_event.hpp:59-84). -/
def ze_events.process_events (m : ze_events_members) (ev : List event_ptr) :
    ze_events_members :=
  ev.foldl (fun m p =>
    match p with
    | some (.ze_events _ _ inner) => inner.foldl ze_events.visit m
    | _ => ze_events.visit m p) m

/-- The constructor `ze_events::ze_events(ev)` (ze_event.hpp:42-45).  The member
`_last_ze_event` has no initialiser; `uninit` is the value it happens to hold. -/
def ze_events.ctor (uninit : ze_event_handle_t) (ev : List event_ptr) : event :=
  let m := ze_events.process_events
    { _queue_stamp := 0, _last_ze_event := uninit, _events := [] } ev
  .ze_events m._queue_stamp m._last_ze_event m._events

/-! ## Stream (ze_stream.cpp) -/

/-- The enum `queue_types` of the engine configuration. -/
inductive queue_types where
  | in_order
  | out_of_order
  deriving DecidableEq, Repr

/-- The enum `sync_methods` of the stream. -/
inductive sync_methods where
  | events
  | barriers
  | none
  deriving DecidableEq, Repr

/-- The two fields of the engine configuration the stream reads. -/
structure engine_configuration where
  queue_type : queue_types
  enable_profiling : Bool
  deriving DecidableEq, Repr

/-- What a call of the stream can throw.  `null_dereference` stands for the
undefined behaviour of calling a member through a null pointer. -/
inductive ze_error where
  | driver (status : ze_result_t)
  | runtime_error
  | out_of_range
  | null_dereference
  deriving DecidableEq, Repr

/-- The members of `ze_stream` the modelled functions read or write, and the
driver behind `_command_list`. -/
structure ze_stream where
  sync_method : sync_methods
  _queue_counter : Nat
  _last_barrier : Nat
  _last_barrier_ev : ze_event_handle_t
  driver : ze_driver

/-- The commands among logged driver calls: the append calls the driver accepted. -/
def commands_of (l : List (ze_call × ze_result_t)) : List ze_call :=
  (l.filter (fun c => c.1.is_command && c.2 == 0)).map Prod.fst

/-- The commands accepted into the command list so far, oldest first. -/
def ze_stream.command_buffer (s : ze_stream) : List ze_call :=
  commands_of s.driver.calls

/-- Issue one driver call under `ZE_CHECK`: log it with the status the driver
returns, and either continue with the out-parameter or throw. -/
def ze_stream.api (s : ze_stream) (c : ze_call) : Except ze_error Nat × ze_stream :=
  let r := s.driver.reply s.driver.calls.length
  let s1 := { s with driver := { s.driver with calls := s.driver.calls ++ [(c, r.status)] } }
  if r.status = 0 then (.ok r.out, s1) else (.error (.driver r.status), s1)

/-- The pre-increment `++_queue_counter` on a `uint64_t`. -/
def incr64 (c : Nat) : Nat := (c + 1) % 2 ^ 64

/-- The selection of `sync_method` in the constructor (ze_stream.cpp:126-127). -/
def resolve_sync_method (config : engine_configuration) : sync_methods :=
  if config.enable_profiling then sync_methods.events
  else if config.queue_type = queue_types.out_of_order then sync_methods.barriers
  else sync_methods.none

/-- The constructor `ze_stream::ze_stream` (ze_stream.cpp:121-157).  The counters
start at zero; `_last_barrier_ev` is not initialised by the constructor and
`uninit` is the value it happens to hold. -/
def ze_stream.ctor (config : engine_configuration) (driver : ze_driver)
    (uninit : ze_event_handle_t) : Except ze_error ze_stream :=
  let sync_method := resolve_sync_method config
  if sync_method = sync_methods.none ∧ config.queue_type = queue_types.out_of_order then
    .error .runtime_error
  else
    let s : ze_stream :=
      { sync_method := sync_method, _queue_counter := 0, _last_barrier := 0,
        _last_barrier_ev := uninit, driver := driver }
    match s.api (.zeCommandListCreateImmediate
        (if config.queue_type = queue_types.out_of_order
          then .ZE_COMMAND_QUEUE_MODE_ASYNCHRONOUS
          else .ZE_COMMAND_QUEUE_MODE_SYNCHRONOUS)) with
    | (.error e, _) => .error e
    | (.ok _, s1) => .ok s1

/-- The function `to_group_count` (ze_stream.cpp:24-35). -/
def to_group_count (v : List Nat) : ze_group_count_t :=
  match v with
  | [a] => ⟨a % 2 ^ 32, 1, 1⟩
  | [a, b] => ⟨a % 2 ^ 32, b % 2 ^ 32, 1⟩
  | [a, b, c] => ⟨a % 2 ^ 32, b % 2 ^ 32, c % 2 ^ 32⟩
  | _ => ⟨0, 0, 0⟩

/-- The member `workGroups` of `kernel_arguments_desc`. -/
structure work_group_sizes where
  global : List Nat
  «local» : List Nat
  deriving DecidableEq, Repr

/-- The part of `kernel_arguments_desc` read by `enqueue_kernel`. -/
structure kernel_arguments_desc where
  workGroups : work_group_sizes
  deriving DecidableEq, Repr

/-- The loop shared by `enqueue_kernel` (ze_stream.cpp:181-186) and
`enqueue_marker` (ze_stream.cpp:256-261): the handles of the dependencies that
cast to `ze_base_event` and whose `get()` is not null, in order. -/
def collect_dep_events : List event_ptr → List ze_event_handle_t
  | [] => []
  | dep :: rest =>
    match as_ze_base_event dep with
    | some ze_base_ev =>
      if ze_base_ev.get ≠ 0 then ze_base_ev.get :: collect_dep_events rest
      else collect_dep_events rest
    | none => collect_dep_events rest

/-- The loop of `sync_events` (ze_stream.cpp:405-410) with the running value of
`needs_barrier`.  The result of the cast is dereferenced without a check. -/
def sync_events_scan (_last_barrier : Nat) : List event_ptr → Bool → Except ze_error Bool
  | [], needs_barrier => .ok needs_barrier
  | dep :: rest, needs_barrier =>
    match as_ze_base_event dep with
    | none => .error .null_dereference
    | some ze_base_ev =>
      sync_events_scan _last_barrier rest
        (if ze_base_ev.get_queue_stamp > _last_barrier then true else needs_barrier)

/-- The function `ze_stream::sync_events` (ze_stream.cpp:403-441). -/
def ze_stream.sync_events (s : ze_stream) (deps : List event_ptr) (is_output : Bool) :
    Except ze_error Unit × ze_stream :=
  match sync_events_scan s._last_barrier deps false with
  | .error e => (.error e, s)
  | .ok needs_barrier =>
    if needs_barrier then
      match s.api (.zeCommandListAppendBarrier 0 0
          (if is_output then [s._last_barrier_ev] else [])) with
      | (.error e, s1) => (.error e, s1)
      | (.ok _, s1) =>
        (.ok (), { s1 with _queue_counter := incr64 s1._queue_counter,
                           _last_barrier := incr64 s1._queue_counter })
    else (.ok (), s)

/-- The function `ze_stream::create_base_event` (ze_stream.cpp:303-324). -/
def ze_stream.create_base_event (s : ze_stream) : Except ze_error event × ze_stream :=
  match s.api .zeEventPoolCreate with
  | (.error e, s1) => (.error e, s1)
  | (.ok _event_pool, s1) =>
    match s1.api (.zeEventCreate _event_pool) with
    | (.error e, s2) => (.error e, s2)
    | (.ok hEvent, s2) =>
      (.ok (.ze_event _event_pool hEvent (incr64 s2._queue_counter)),
        { s2 with _queue_counter := incr64 s2._queue_counter })

/-- The function `ze_stream::create_user_event` (ze_stream.cpp:280-301).  The
third constructor argument of `ze_event` is `uint64_t queue_stamp`; the `bool`
passed to it converts to `1` or `0`. -/
def ze_stream.create_user_event (s : ze_stream) (set : Bool) :
    Except ze_error event × ze_stream :=
  match s.api .zeEventPoolCreate with
  | (.error e, s1) => (.error e, s1)
  | (.ok _event_pool, s1) =>
    match s1.api (.zeEventCreate _event_pool) with
    | (.error e, s2) => (.error e, s2)
    | (.ok hEvent, s2) =>
      (.ok (.ze_event _event_pool hEvent (if set then 1 else 0)), s2)

/-- The tail of `enqueue_kernel` from `create_base_event` on
(ze_stream.cpp:207-225); `dep_events_ptr` is `none` for `nullptr`. -/
def ze_stream.enqueue_kernel_launch (s : ze_stream) (kern : ze_kernel_handle_t)
    (args_desc : kernel_arguments_desc) (dep_events_ptr : Option (List ze_event_handle_t))
    (set_output_event : Bool) : Except ze_error event × ze_stream :=
  match s.create_base_event with
  | (.error e, s1) => (.error e, s1)
  | (.ok ev, s1) =>
    let global := to_group_count args_desc.workGroups.global
    let «local» := to_group_count args_desc.workGroups.local
    let launchArgs : ze_group_count_t :=
      ⟨global.groupCountX, global.groupCountY, global.groupCountZ⟩
    match s1.api (.zeKernelSetGroupSize kern «local».groupCountX «local».groupCountY
        «local».groupCountZ) with
    | (.error e, s2) => (.error e, s2)
    | (.ok _, s2) =>
      match dep_events_ptr with
      | some [] => (.error .out_of_range, s2)
      | _ =>
        match s2.api (.zeCommandListAppendLaunchKernel kern launchArgs
            (if set_output_event then ev.get else 0)
            (match dep_events_ptr with | none => 0 | some l => l.length)
            (match dep_events_ptr with | none => [] | some l => l)) with
        | (.error e, s3) => (.error e, s3)
        | (.ok _, s3) => (.ok ev, s3)

/-- The function `ze_stream::enqueue_kernel` (ze_stream.cpp:169-227). -/
def ze_stream.enqueue_kernel (s : ze_stream) (kern : ze_kernel_handle_t)
    (args_desc : kernel_arguments_desc) (deps : List event_ptr) (is_output : Bool) :
    Except ze_error event × ze_stream :=
  let set_output_event : Bool := s.sync_method = sync_methods.events || is_output
  match s.sync_method with
  | .events =>
    s.enqueue_kernel_launch kern args_desc (some (collect_dep_events deps)) set_output_event
  | .barriers =>
    match s.sync_events deps is_output with
    | (.error e, s1) => (.error e, s1)
    | (.ok _, s1) => s1.enqueue_kernel_launch kern args_desc none set_output_event
  | .none => s.enqueue_kernel_launch kern args_desc none set_output_event

/-- The function `ze_stream::enqueue_barrier` (ze_stream.cpp:229-231). -/
def ze_stream.enqueue_barrier (s : ze_stream) : Except ze_error Unit × ze_stream :=
  match s.api (.zeCommandListAppendBarrier 0 0 []) with
  | (.error e, s1) => (.error e, s1)
  | (.ok _, s1) => (.ok (), s1)

/-- The function `ze_stream::enqueue_marker` (ze_stream.cpp:233-274). -/
def ze_stream.enqueue_marker (s : ze_stream) (deps : List event_ptr) (is_output : Bool) :
    Except ze_error event × ze_stream :=
  if deps.isEmpty then s.create_user_event true
  else
    match s.api .zeEventPoolCreate with
    | (.error e, s1) => (.error e, s1)
    | (.ok _event_pool, s1) =>
      match s1.api (.zeEventCreate _event_pool) with
      | (.error e, s2) => (.error e, s2)
      | (.ok ret_ev, s2) =>
        match s2.sync_method with
        | .events =>
          if collect_dep_events deps = [] then s2.create_user_event true
          else
            match s2.api (.zeCommandListAppendBarrier ret_ev 0 []) with
            | (.error e, s3) => (.error e, s3)
            | (.ok _, s3) =>
              (.ok (.ze_event _event_pool ret_ev (incr64 s3._queue_counter)),
                { s3 with _queue_counter := incr64 s3._queue_counter })
        | .barriers =>
          match s2.sync_events deps is_output with
          | (.error e, s3) => (.error e, s3)
          | (.ok _, s3) =>
            (.ok (.ze_event _event_pool s3._last_barrier_ev s3._last_barrier), s3)
        | .none => (.ok (.ze_event _event_pool ret_ev 1), s2)

/-- The function `ze_stream::group_events` (ze_stream.cpp:276-278). -/
def ze_stream.group_events (s : ze_stream) (uninit : ze_event_handle_t)
    (deps : List event_ptr) : Except ze_error event × ze_stream :=
  (.ok (ze_events.ctor uninit deps), s)

/-- The loop of `ze_stream::wait_for_events` (ze_stream.cpp:384-389): every
pointer that casts to `ze_base_event` is waited on with the handle its `get()`
returns; the handle is not tested. -/
def ze_stream.wait_for_events_loop (s : ze_stream) :
    List event_ptr → Except ze_error Unit × ze_stream
  | [] => (.ok (), s)
  | ev :: rest =>
    match as_ze_base_event ev with
    | some ze_base_ev =>
      match s.api (.zeEventHostSynchronize ze_base_ev.get) with
      | (.error e, s1) => (.error e, s1)
      | (.ok _, s1) => s1.wait_for_events_loop rest
    | none => s.wait_for_events_loop rest

/-- The function `ze_stream::wait_for_events` (ze_stream.cpp:379-401). -/
def ze_stream.wait_for_events (s : ze_stream) (events : List event_ptr) :
    Except ze_error Unit × ze_stream :=
  if events.isEmpty then (.ok (), s) else s.wait_for_events_loop events

/-! ## Argument binding (ze_stream.cpp:37-167) -/

/-- A memory object as `set_arguments_impl` sees it: `is_usm` is what
`memory_capabilities::is_usm_type(get_allocation_type())` returns for it, and
`gpu_usm` is the buffer pointer when the class of the object is `ze::gpu_usm`
(the `dynamic_pointer_cast` succeeds), `none` when it is another class. -/
structure memory where
  is_usm : Bool
  gpu_usm : Option Nat
  deriving DecidableEq, Repr

/-- A shared pointer to a memory object; `none` is the null pointer. -/
abbrev memory_ptr := Option memory

/-- The enumerators of `argument_desc::Types` that `set_arguments_impl` names;
`other` is any further enumerator (the `default` branch). -/
inductive argument_desc.Types where
  | INPUT
  | INPUT_OF_FUSED_PRIMITIVE
  | INTERNAL_BUFFER
  | OUTPUT
  | WEIGHTS
  | BIAS
  | WEIGHTS_ZERO_POINTS
  | other (tag : Nat)
  deriving DecidableEq, Repr

/-- The struct `argument_desc`. -/
structure argument_desc where
  t : argument_desc.Types
  index : Nat
  deriving DecidableEq, Repr

/-- The members of `kernel_arguments_data` that `set_arguments_impl` reads. -/
structure kernel_arguments_data where
  inputs : List memory_ptr
  fused_op_inputs : List memory_ptr
  intermediates : List memory_ptr
  output : memory_ptr
  weights : memory_ptr
  bias : memory_ptr
  weights_zero_points : memory_ptr
  deriving DecidableEq, Repr

/-- The statement shared by all seven cases:
`auto ptr = std::dynamic_pointer_cast<const ze::gpu_usm>(mem)->get_buffer().get();`
followed by `ZE_CHECK(zeKernelSetArgumentValue(kernel, i, sizeof(void*), &ptr))`.
The result of the cast is dereferenced without a test. -/
def ze_stream.bind_usm (s : ze_stream) (kernel : ze_kernel_handle_t) (i : Nat) (mem : memory) :
    Except ze_error Unit × ze_stream :=
  match mem.gpu_usm with
  | none => (.error .null_dereference, s)
  | some ptr =>
    match s.api (.zeKernelSetArgumentValue kernel i ptr) with
    | (.error e, s1) => (.error e, s1)
    | (.ok _, s1) => (.ok (), s1)

/-- The cases INPUT, INPUT_OF_FUSED_PRIMITIVE and INTERNAL_BUFFER
(ze_stream.cpp:46-84): the index is in range, the pointer is not null, and the
allocation type is a USM type. -/
def ze_stream.bind_indexed (s : ze_stream) (kernel : ze_kernel_handle_t) (i : Nat)
    (buffers : List memory_ptr) (index : Nat) : Except ze_error Unit × ze_stream :=
  if index < buffers.length then
    match buffers.getD index none with
    | some input_mem =>
      if input_mem.is_usm then s.bind_usm kernel i input_mem else (.ok (), s)
    | none => (.ok (), s)
  else (.ok (), s)

/-- The cases OUTPUT, WEIGHTS, BIAS and WEIGHTS_ZERO_POINTS (ze_stream.cpp:85-114):
only the pointer is tested. -/
def ze_stream.bind_single (s : ze_stream) (kernel : ze_kernel_handle_t) (i : Nat)
    (mem : memory_ptr) : Except ze_error Unit × ze_stream :=
  match mem with
  | some m => s.bind_usm kernel i m
  | none => (.ok (), s)

/-- The body of the loop of `set_arguments_impl` for the descriptor at position
`i` (the `switch`, ze_stream.cpp:45-117). -/
def ze_stream.set_argument (s : ze_stream) (kernel : ze_kernel_handle_t) (i : Nat)
    (arg : argument_desc) (data : kernel_arguments_data) : Except ze_error Unit × ze_stream :=
  match arg.t with
  | .INPUT => s.bind_indexed kernel i data.inputs arg.index
  | .INPUT_OF_FUSED_PRIMITIVE => s.bind_indexed kernel i data.fused_op_inputs arg.index
  | .INTERNAL_BUFFER => s.bind_indexed kernel i data.intermediates arg.index
  | .OUTPUT => s.bind_single kernel i data.output
  | .WEIGHTS => s.bind_single kernel i data.weights
  | .BIAS => s.bind_single kernel i data.bias
  | .WEIGHTS_ZERO_POINTS => s.bind_single kernel i data.weights_zero_points
  | .other _ => (.ok (), s)

/-- The loop of `set_arguments_impl` from position `i` on, over the descriptors
that remain. -/
def ze_stream.set_arguments_from (s : ze_stream) (kernel : ze_kernel_handle_t)
    (data : kernel_arguments_data) : Nat → List argument_desc → Except ze_error Unit × ze_stream
  | _, [] => (.ok (), s)
  | i, arg :: rest =>
    match s.set_argument kernel i arg data with
    | (.error e, s1) => (.error e, s1)
    | (.ok _, s1) => s1.set_arguments_from kernel data (i + 1) rest

/-- The function `set_arguments_impl` (ze_stream.cpp:37-119), called by
`ze_stream::set_arguments` with the handle of the kernel.  The loop counter is a
`uint32_t` bounded by `static_cast<uint32_t>(args.size())`. -/
def ze_stream.set_arguments (s : ze_stream) (kernel : ze_kernel_handle_t)
    (args : List argument_desc) (data : kernel_arguments_data) :
    Except ze_error Unit × ze_stream :=
  s.set_arguments_from kernel data 0 (args.take (args.length % 2 ^ 32))

/-! ## Sequences of stream operations -/

/-- One call of the public stream interface, with its arguments. -/
inductive stream_op where
  | enqueue_kernel (kern : ze_kernel_handle_t) (args_desc : kernel_arguments_desc)
      (deps : List event_ptr) (is_output : Bool)
  | enqueue_barrier
  | enqueue_marker (deps : List event_ptr) (is_output : Bool)
  | group_events (uninit : ze_event_handle_t) (deps : List event_ptr)
  | create_user_event (set : Bool)

/-- Run one operation: the event it returns, if it returns one, or the error it
throws; and the stream afterwards. -/
def ze_stream.step (s : ze_stream) : stream_op → Except ze_error (Option event) × ze_stream
  | .enqueue_kernel kern args_desc deps is_output =>
    ((s.enqueue_kernel kern args_desc deps is_output).1.map some,
      (s.enqueue_kernel kern args_desc deps is_output).2)
  | .enqueue_barrier => (s.enqueue_barrier.1.map (fun _ => none), s.enqueue_barrier.2)
  | .enqueue_marker deps is_output =>
    ((s.enqueue_marker deps is_output).1.map some, (s.enqueue_marker deps is_output).2)
  | .group_events uninit deps =>
    ((s.group_events uninit deps).1.map some, (s.group_events uninit deps).2)
  | .create_user_event set =>
    ((s.create_user_event set).1.map some, (s.create_user_event set).2)

/-- Run a sequence of operations; an operation that throws leaves the stream as
it was at the throw and the next operation goes on from there. -/
def ze_stream.run (s : ze_stream) : List stream_op → ze_stream
  | [] => s
  | op :: ops => (s.step op).2.run ops

/-- The outcomes of the operations of a sequence, in order. -/
def ze_stream.run_results (s : ze_stream) :
    List stream_op → List (Except ze_error (Option event))
  | [] => []
  | op :: ops => (s.step op).1 :: (s.step op).2.run_results ops

/-- Every dependency is a non-null pointer to a native event (an object whose
class derives from `ze_base_event`). -/
def all_native (deps : List event_ptr) : Bool :=
  deps.all (fun dep => (as_ze_base_event dep).isSome)

/-- The dependency list of the operation, if it takes one that it scans for
ordering, holds only non-null native events. -/
def stream_op.native_deps : stream_op → Bool
  | .enqueue_kernel _ _ deps _ => all_native deps
  | .enqueue_marker deps _ => all_native deps
  | _ => true

/-- Some dependency has a queue stamp above the mark: the condition under which
`sync_events` sets `needs_barrier`. -/
def exceeds_mark (_last_barrier : Nat) (deps : List event_ptr) : Bool :=
  deps.any (fun dep =>
    match as_ze_base_event dep with
    | some ze_base_ev => decide (ze_base_ev.get_queue_stamp > _last_barrier)
    | none => false)

/-- A driver that accepts every call and hands out the call index plus one as
handle; used to run the code on concrete inputs. -/
def accepting_driver : ze_driver :=
  { reply := fun n => { status := 0, out := n + 1 }, calls := [] }

/-- The stream the constructor builds over `accepting_driver` (with
`_last_barrier_ev` holding null): the value of `ze_stream.ctor config
accepting_driver 0`, written out. -/
def fresh_stream (config : engine_configuration) : ze_stream :=
  { sync_method := resolve_sync_method config, _queue_counter := 0, _last_barrier := 0,
    _last_barrier_ev := 0,
    driver := { accepting_driver with
      calls := [(.zeCommandListCreateImmediate
        (if config.queue_type = queue_types.out_of_order
          then .ZE_COMMAND_QUEUE_MODE_ASYNCHRONOUS
          else .ZE_COMMAND_QUEUE_MODE_SYNCHRONOUS), 0)] } }

/-- The queue stamp of the event an operation returned, if it returned one. -/
def result_stamp : Except ze_error (Option event) → Option Nat
  | .ok (some ev) => some ev.get_queue_stamp
  | _ => none

/-! ## Vocabulary for the statements -/

/-- The stream with further driver calls logged and nothing else changed. -/
def ze_stream.logged (s : ze_stream) (l : List (ze_call × ze_result_t)) : ze_stream :=
  { s with driver := { s.driver with calls := s.driver.calls ++ l } }

/-- The status the driver returns to the `i`-th API call issued from now on. -/
def ze_stream.status_at (s : ze_stream) (i : Nat) : ze_result_t :=
  (s.driver.reply (s.driver.calls.length + i)).status

/-- The handle the driver writes for the `i`-th API call issued from now on. -/
def ze_stream.out_at (s : ze_stream) (i : Nat) : Nat :=
  (s.driver.reply (s.driver.calls.length + i)).out

/-- The driver accepts the next `n` API calls. -/
def ze_stream.accepts (s : ze_stream) (n : Nat) : Prop :=
  ∀ i, i < n → s.status_at i = 0

/-- The stream with the two counters replaced and nothing else changed. -/
def ze_stream.with_counters (s : ze_stream) (counter mark : Nat) : ze_stream :=
  { s with _queue_counter := counter, _last_barrier := mark }

/-- The launch command `enqueue_kernel` appends for the given arguments. -/
def launch_call (kern : ze_kernel_handle_t) (args_desc : kernel_arguments_desc)
    (hSignalEvent : ze_event_handle_t) (waits : List ze_event_handle_t) : ze_call :=
  .zeCommandListAppendLaunchKernel kern (to_group_count args_desc.workGroups.global)
    hSignalEvent waits.length waits

/-- The group-size call `enqueue_kernel` issues for the given arguments. -/
def group_size_call (kern : ze_kernel_handle_t) (args_desc : kernel_arguments_desc) : ze_call :=
  .zeKernelSetGroupSize kern (to_group_count args_desc.workGroups.local).groupCountX
    (to_group_count args_desc.workGroups.local).groupCountY
    (to_group_count args_desc.workGroups.local).groupCountZ

/-- The barrier `sync_events` appends (ze_stream.cpp:432 and 434): no signal
event, a wait count of zero, and as wait array the address of `_last_barrier_ev`
when `is_output` holds, null otherwise. -/
def sync_barrier_call (s : ze_stream) (is_output : Bool) : ze_call :=
  .zeCommandListAppendBarrier 0 0 (if is_output then [s._last_barrier_ev] else [])

/-- A successfully appended barrier occurs in a piece of the call log. -/
def has_barrier (l : List (ze_call × ze_result_t)) : Prop :=
  ∃ b, b ∈ l ∧ b.1.is_barrier = true ∧ b.2 = 0

/-- The ways one call of the stream interface can move the stream: it logs
driver calls and either keeps the mark (the counter taking at most one
increment), or appends a barrier, sets the mark to the incremented counter, and
then increments the counter at most once more. -/
def ze_stream.advances (s s' : ze_stream) : Prop :=
  ∃ l c m, s' = (s.logged l).with_counters c m ∧
    ((m = s._last_barrier ∧ (c = s._queue_counter ∨ c = incr64 s._queue_counter)) ∨
     (m = incr64 s._queue_counter ∧ has_barrier l ∧
        (c = incr64 s._queue_counter ∨ c = incr64 (incr64 s._queue_counter))))

/-- The operations whose returned event is stamped with `++_queue_counter`:
`enqueue_kernel`, and `enqueue_marker` on the path of ze_stream.cpp:265-266
(strategy `events`, at least one dependency handle collected). -/
def stream_op.stamps_from_counter (m : sync_methods) : stream_op → Bool
  | .enqueue_kernel _ _ _ _ => true
  | .enqueue_marker deps _ =>
    decide (m = sync_methods.events) && !deps.isEmpty && !(collect_dep_events deps).isEmpty
  | _ => false

/-- The queue stamps of the events returned, in order of creation, by those
operations of a sequence that stamp from the counter and complete. -/
def ze_stream.counter_stamps (s : ze_stream) : List stream_op → List Nat
  | [] => []
  | op :: ops =>
    (if op.stamps_from_counter s.sync_method then (result_stamp (s.step op).1).toList else [])
      ++ (s.step op).2.counter_stamps ops

/-! ## Definitions that follow the wording of the specification -/

/-- Whether the object is a native event: its class derives from `ze_base_event`. -/
def event.is_native : event → Bool
  | .ze_event _ _ _ => true
  | .ze_events _ _ _ => true
  | .other _ => false

/-- Follows the specification, not the code: the device handles of those
dependencies that are native events with a non-null handle, in dependency-list
order; null entries, non-native events and null handles are omitted. -/
def spec_wait_list (deps : List event_ptr) : List ze_event_handle_t :=
  deps.filterMap (fun dep =>
    match dep with
    | some e => if e.is_native = true ∧ e.get ≠ 0 then some e.get else none
    | none => none)

/-- Follows the specification, not the code: extent `i` of a work size, reduced
to 32 bits, or `1` when the work size has no such dimension (padding). -/
def spec_extent (v : List Nat) (i : Nat) : Nat :=
  (v.map (fun x => x % 2 ^ 32)).getD i 1

/-! ## The scenario of the specification -/

/-- The configuration `{queue_type: out_of_order, enable_profiling: false}`. -/
def scenario_config : engine_configuration :=
  { queue_type := .out_of_order, enable_profiling := false }

/-- The configuration `{queue_type: in_order, enable_profiling: true}`. -/
def profiling_config : engine_configuration :=
  { queue_type := .in_order, enable_profiling := true }

/-- Kernel K1 enqueued on the fresh stream with no dependencies and
`is_output = false`. -/
def scenario_K1 : Except ze_error event × ze_stream :=
  (fresh_stream scenario_config).enqueue_kernel 7 ⟨⟨[8], [2]⟩⟩ [] false

/-- Kernel K2 enqueued next, with the event of K1 as its only dependency and
`is_output = true`. -/
def scenario_K2 : Except ze_error event × ze_stream :=
  scenario_K1.2.enqueue_kernel 8 ⟨⟨[8], [2]⟩⟩ [scenario_K1.1.toOption] true

/-- The two kernel launches of the scenario as stream operations. -/
def scenario_ops : List stream_op :=
  [.enqueue_kernel 7 ⟨⟨[8], [2]⟩⟩ [] false,
   .enqueue_kernel 8 ⟨⟨[8], [2]⟩⟩ [some (.ze_event 2 3 1)] true]

/-- A kernel followed by two markers that depend on the event of the kernel
(pool 2, handle 3, stamp 1). -/
def marker_ops : List stream_op :=
  [.enqueue_kernel 7 ⟨⟨[8], [2]⟩⟩ [] false,
   .enqueue_marker [some (.ze_event 2 3 1)] false,
   .enqueue_marker [some (.ze_event 2 3 1)] false]

/-- The stream of the scenario after kernel K1 and one marker on the event of K1
(pool 2, handle 3, stamp 1): that marker issued a barrier, the mark is 2. -/
def marker_stream : ze_stream :=
  (fresh_stream scenario_config).run
    [.enqueue_kernel 7 ⟨⟨[8], [2]⟩⟩ [] false, .enqueue_marker [some (.ze_event 2 3 1)] false]

/-- The stream the constructor builds for the scenario configuration over
`accepting_driver` when the uninitialised `_last_barrier_ev` holds 42. -/
def stale_barrier_ev_stream : ze_stream :=
  { fresh_stream scenario_config with _last_barrier_ev := 42 }

/-! ## Composite events: the wording of the specification -/

/-- The member `_events` of a composite; other objects have none. -/
def event._events : event → List event_ptr
  | .ze_events _ _ es => es
  | _ => []

/-- Follows the specification, not the code: what one input pointer contributes
when a group is flattened: the stored members of a composite, in their order,
and the pointer itself otherwise. -/
def spec_members : event_ptr → List event_ptr
  | some (.ze_events _ _ inner) => inner
  | p => [p]

/-- Follows the specification, not the code: the flattened input list. -/
def spec_flatten : List event_ptr → List event_ptr
  | [] => []
  | p :: ps => spec_members p ++ spec_flatten ps

/-- Follows the specification, not the code: the simple (leaf) events an input
list yields after flattening, each as `(handle, stamp)`, in order. -/
def spec_leaves (ev : List event_ptr) : List (ze_event_handle_t × Nat) :=
  (spec_flatten ev).filterMap as_ze_event

/-- How an input of the `ze_events` constructor came about: a simple event, or
a composite built by that constructor from inputs of the same two kinds. -/
inductive event_tree where
  | simple (_event_pool : ze_event_pool_handle_t) (_event : ze_event_handle_t)
      (_queue_stamp : Nat)
  | group (uninit : ze_event_handle_t) (inputs : List event_tree)

mutual
/-- The event object a construction yields: `ze_events.ctor` applied at every
group, innermost first. -/
def event_tree.build : event_tree → event
  | .simple p h q => .ze_event p h q
  | .group u inputs => ze_events.ctor u (event_tree.build_list inputs)
/-- The pointers to the objects a list of constructions yields. -/
def event_tree.build_list : List event_tree → List event_ptr
  | [] => []
  | t :: ts => some t.build :: event_tree.build_list ts
end

mutual
/-- The simple events of a construction, in order, to any depth. -/
def event_tree.leaves : event_tree → List event
  | .simple p h q => [.ze_event p h q]
  | .group _ inputs => event_tree.leaves_list inputs
/-- The simple events of a list of constructions, in order. -/
def event_tree.leaves_list : List event_tree → List event
  | [] => []
  | t :: ts => t.leaves ++ event_tree.leaves_list ts
end
/-- What `process_events` maintains while it visits pointers, `seen` being the
simple events among those visited so far: the stamp bounds every stamp seen,
it is zero while none was seen, and otherwise the stamp and the representative
handle are those of one event seen. -/
def leaf_invariant (m : ze_events_members) (seen : List (ze_event_handle_t × Nat)) : Prop :=
  (∀ leaf, leaf ∈ seen → leaf.2 ≤ m._queue_stamp) ∧
  (seen = [] → m._queue_stamp = 0) ∧
  (seen ≠ [] → ∃ leaf, leaf ∈ seen ∧ leaf.2 = m._queue_stamp ∧ leaf.1 = m._last_ze_event)

/-- The example of the specification: the group of `[e1, e2]` and the group of
`[e3]`, with handles 11, 12, 13 and stamps 3, 9, 6. -/
def grouped_example : List event_ptr :=
  [some (ze_events.ctor 0 [some (.ze_event 1 11 3), some (.ze_event 1 12 9)]),
   some (ze_events.ctor 0 [some (.ze_event 1 13 6)])]

/-- A memory object that is not of a USM allocation type and whose class is not
`ze::gpu_usm`. -/
def non_usm_buffer : memory := { is_usm := false, gpu_usm := none }

/-- A USM memory object of class `ze::gpu_usm` with buffer pointer 100. -/
def usm_buffer : memory := { is_usm := true, gpu_usm := some 100 }

/-- Argument data with a non-USM buffer as input 0, output and weights, a USM
buffer as input 1, and null pointers elsewhere. -/
def binding_data : kernel_arguments_data :=
  { inputs := [some non_usm_buffer, some usm_buffer, none], fused_op_inputs := [],
    intermediates := [], output := some non_usm_buffer, weights := some non_usm_buffer,
    bias := none, weights_zero_points := none }

/-! ## Sequences of calls of any function of the stream -/

/-- One call of a function of ze_stream.cpp that works on the stream: the
operations of `stream_op`, and `set_arguments`, `wait_for_events`,
`create_base_event` and `sync_events`. -/
inductive stream_call where
  | op (o : stream_op)
  | set_arguments (kernel : ze_kernel_handle_t) (args : List argument_desc)
      (data : kernel_arguments_data)
  | wait_for_events (events : List event_ptr)
  | create_base_event
  | sync_events (deps : List event_ptr) (is_output : Bool)

/-- The stream as one call leaves it, whether the call returns or throws. -/
def ze_stream.after (s : ze_stream) : stream_call → ze_stream
  | .op o => (s.step o).2
  | .set_arguments kernel args data => (s.set_arguments kernel args data).2
  | .wait_for_events events => (s.wait_for_events events).2
  | .create_base_event => s.create_base_event.2
  | .sync_events deps is_output => (s.sync_events deps is_output).2

/-- The stream after a sequence of calls. -/
def ze_stream.run_calls (s : ze_stream) : List stream_call → ze_stream
  | [] => s
  | c :: cs => (s.after c).run_calls cs

/-- The scenario of the specification with a binding of arguments before the
first launch and a host wait after the last operation. -/
def scenario_calls : List stream_call :=
  .set_arguments 7 [⟨.INPUT, 1⟩] binding_data :: scenario_ops.map .op ++
    [.wait_for_events [some (.ze_event 1 5 1)]]

end ze
end cldnn

namespace kernel_selector

/-! ## Concatenation kernel (concatenation_kernel_base.cpp) -/

/-- Ways in which the model of the kernel selector stops without a result: the
step budget of a loop is used up, or the C++ code has no defined behaviour
(an element read past the end of a vector, a remainder by zero). -/
inductive ks_error where
  | out_of_fuel
  | undefined_behaviour
  deriving DecidableEq, Repr

/-- Enumerators of `Tensor::DataChannelName` that the concatenation kernel names. -/
inductive DataChannelName where
  | X
  | Y
  | Z
  | W
  | FEATURE
  | BATCH
  deriving DecidableEq, Repr

/-- Enumerators of `ConcatAxis`; `other` stands for a value outside the six
cases of the switch in `GetConcatChannel`. -/
inductive ConcatAxis where
  | X
  | Y
  | Z
  | W
  | FEATURE
  | BATCH
  | other (tag : Nat)
  deriving DecidableEq, Repr

/-- Enumerators of `KernelType`: the one `Validate` asks for, and any other. -/
inductive KernelType where
  | CONCATENATION
  | other (tag : Nat)
  deriving DecidableEq, Repr

/-- The table behind `DataTensor::Channelndex(layout, channel)`: the position of
a channel in the `dims` of a tensor of the given layout, `-1` when the layout
has no such channel.  The table is declared outside the source file and is a
parameter of everything that reads it; layouts are numbered. -/
abbrev ChannelTable := Nat → DataChannelName → Int

/-- A `DataTensor` as far as the concatenation kernel reads it: its layout and
the extent `.v` of each of its `dims`. -/
structure DataTensor where
  layout : Nat
  dims : List Nat
  deriving DecidableEq, Repr

/-- The fields of `concatenation_params` read by `concatenation_kernel_base.cpp`;
`type` is what `GetType()` returns. -/
structure concatenation_params where
  type : KernelType
  axis : ConcatAxis
  inputs : List DataTensor
  outputs : List DataTensor
  deriving DecidableEq, Repr

/-- The read `dims[k].v` with an `int` index `k`: defined when `k` is a position
of the vector. -/
def read_dim (dims : List Nat) (k : Int) : Except ks_error Nat :=
  if 0 ≤ k ∧ k.toNat < dims.length then .ok (dims.getD k.toNat 0)
  else .error .undefined_behaviour

/-- The expression `idx != -1 ? dims[idx].v : 1` of `SetDefault`. -/
def extent_or_one (dims : List Nat) (k : Int) : Except ks_error Nat :=
  if k ≠ -1 then read_dim dims k else .ok 1

/-- The loop `while (gws[0] % lws[0] != 0) --lws[0];` of `SetDefault` on
`size_t` values, one test of the condition per unit of fuel.  A remainder by
zero has no defined behaviour. -/
def lws_loop (gws0 : Nat) : Nat → Nat → Except ks_error Nat
  | 0, _ => .error .out_of_fuel
  | fuel + 1, lws0 =>
    if lws0 = 0 then .error .undefined_behaviour
    else if gws0 % lws0 ≠ 0 then lws_loop gws0 fuel ((lws0 + 2 ^ 64 - 1) % 2 ^ 64)
    else .ok lws0

/-- The work sizes of `CommonDispatchData`: three global and three local. -/
structure DispatchData where
  gws : List Nat
  lws : List Nat
  deriving DecidableEq, Repr

/-- Source: `ConcatenationKernelBase::SetDefault`. -/
def SetDefault (cx : ChannelTable) (fuel : Nat) (params : concatenation_params) :
    Except ks_error DispatchData :=
  match params.inputs with
  | [] => .error .undefined_behaviour
  | input :: _ =>
    let idx : List Int := [cx input.layout .BATCH, cx input.layout .FEATURE,
                           cx input.layout .Y, cx input.layout .X]
    match extent_or_one input.dims (idx.getD 2 0) with
    | .error e => .error e
    | .ok gws0 =>
      match extent_or_one input.dims (idx.getD 1 0) with
      | .error e => .error e
      | .ok gws1 =>
        match extent_or_one input.dims (idx.getD 0 0) with
        | .error e => .error e
        | .ok gws2 =>
          match lws_loop gws0 fuel (min (max gws0 1) 32) with
          | .error e => .error e
          | .ok lws0 => .ok { gws := [gws0, gws1, gws2], lws := [lws0, 1, 1] }

/-- Enumerators of `ArgumentDescriptor::Types` that the concatenation kernel
pushes. -/
inductive ArgumentDescriptor.Types where
  | INPUT
  | OUTPUT
  | SCALAR
  deriving DecidableEq, Repr

/-- Enumerators of `ScalarDescriptor::Types`: the one used here, and any other. -/
inductive ScalarDescriptor.Types where
  | UINT32
  | other (tag : Nat)
  deriving DecidableEq, Repr

/-- The channel table of the `bfyx` layout (numbered 0): x, y, feature, batch
at positions 0 to 3, no z or w. -/
def bfyx_table : ChannelTable := fun _ c =>
  match c with
  | .X => 0
  | .Y => 1
  | .FEATURE => 2
  | .BATCH => 3
  | _ => -1

/-- Two `bfyx` inputs of 4 by 35 with 3 and 5 features, concatenated along the
features. -/
def example_params : concatenation_params :=
  { type := .CONCATENATION, axis := .FEATURE,
    inputs := [⟨0, [4, 35, 3, 1]⟩, ⟨0, [4, 35, 5, 1]⟩],
    outputs := [⟨0, [4, 35, 8, 1]⟩] }

end kernel_selector

namespace ov
namespace tools
namespace subgraph_dumper

/-! ## Model meta information (model_info.hpp) -/

/-- A `std::set<std::string>`: its elements in iteration order, which is
strictly increasing, so no element occurs twice. -/
structure std_set where
  elems : List String
  sorted : elems.Sorted (fun a b => a < b)

/-- The member function `size()` of the set. -/
def std_set.size (s : std_set) : Nat := s.elems.length

/-- The fields of `struct ModelInfo`; `size_t` counters. -/
structure ModelInfo where
  model_paths : std_set
  this_op_cnt : Nat
  total_op_cnt : Nat
  model_priority : Nat

/-- Source: the constructor `ModelInfo(model_path, total_ops_in_model,
_model_priority)`: one path, `this_op_cnt` 1. -/
def ModelInfo.mk1 (model_path : String) (total_ops_in_model : Nat) (_model_priority : Nat) :
    ModelInfo :=
  { model_paths := ⟨[model_path], List.sorted_singleton model_path⟩
    this_op_cnt := 1
    total_op_cnt := total_ops_in_model
    model_priority := _model_priority }

/-- The `for` loop of `operator==` over the paths of the left value still to
visit: `std::find` over the paths `ref` of the right value, `false` at the first
path that is not found. -/
def ModelInfo.find_loop (ref : List String) : List String → Bool
  | [] => true
  | model_path :: rest =>
    if ref.find? (fun p => p == model_path) = none then false
    else ModelInfo.find_loop ref rest

/-- Source: `ModelInfo::operator==`. -/
def ModelInfo.operator_eq (this model_info_ref : ModelInfo) : Bool :=
  if this.model_priority ≠ model_info_ref.model_priority ∨
      this.this_op_cnt ≠ model_info_ref.this_op_cnt ∨
      this.total_op_cnt ≠ model_info_ref.total_op_cnt ∨
      this.model_paths.size ≠ model_info_ref.model_paths.size then false
  else ModelInfo.find_loop model_info_ref.model_paths.elems this.model_paths.elems

end subgraph_dumper
end tools
end ov

namespace cldnn
namespace ze

/-! ## Lemmas: what each function computes -/

theorem api_fst (s : ze_stream) (c : ze_call) :
    (s.api c).1 = if (s.driver.reply s.driver.calls.length).status = 0
      then .ok (s.driver.reply s.driver.calls.length).out
      else .error (.driver (s.driver.reply s.driver.calls.length).status) := by
  simp only [ze_stream.api]
  split <;> rfl

theorem api_snd (s : ze_stream) (c : ze_call) :
    (s.api c).2 = { s with driver := { s.driver with
      calls := s.driver.calls ++ [(c, (s.driver.reply s.driver.calls.length).status)] } } := by
  simp only [ze_stream.api]
  split <;> rfl

theorem api_ok {s s1 : ze_stream} {c : ze_call} {h : Nat} (e : s.api c = (.ok h, s1)) :
    (s.driver.reply s.driver.calls.length).status = 0 ∧
    h = (s.driver.reply s.driver.calls.length).out ∧
    s1 = { s with driver := { s.driver with calls := s.driver.calls ++ [(c, 0)] } } := by
  have h1 := api_fst s c
  have h2 := api_snd s c
  rw [e] at h1 h2
  simp only at h1 h2
  split at h1
  · rename_i h0
    rw [h0] at h2
    simp at h1
    exact ⟨h0, h1, h2⟩
  · simp at h1

theorem api_error {s s1 : ze_stream} {c : ze_call} {e : ze_error} (h : s.api c = (.error e, s1)) :
    (s.driver.reply s.driver.calls.length).status ≠ 0 ∧
    e = .driver (s.driver.reply s.driver.calls.length).status ∧
    s1 = { s with driver := { s.driver with
      calls := s.driver.calls ++ [(c, (s.driver.reply s.driver.calls.length).status)] } } := by
  have h1 := api_fst s c
  have h2 := api_snd s c
  rw [h] at h1 h2
  simp only at h1 h2
  split at h1
  · simp at h1
  · rename_i h0
    simp at h1
    exact ⟨h0, h1, h2⟩

theorem sync_events_scan_eq (m : Nat) (deps : List event_ptr) (nb : Bool)
    (hn : all_native deps = true) :
    sync_events_scan m deps nb = .ok (nb || exceeds_mark m deps) := by
  induction deps generalizing nb with
  | nil => simp [sync_events_scan, exceeds_mark]
  | cons d rest ih =>
    simp only [all_native, List.all_cons, Bool.and_eq_true] at hn
    obtain ⟨hd, hrest⟩ := hn
    cases hb : as_ze_base_event d with
    | none => simp [hb] at hd
    | some b =>
      simp only [sync_events_scan, hb]
      rw [ih _ hrest]
      simp only [exceeds_mark, List.any_cons, hb]
      by_cases hs : b.get_queue_stamp > m <;> simp [hs]

theorem exceeds_mark_iff (m : Nat) (deps : List event_ptr) (hn : all_native deps = true) :
    exceeds_mark m deps = true ↔ ∃ e, some e ∈ deps ∧ e.get_queue_stamp > m := by
  induction deps with
  | nil => simp [exceeds_mark]
  | cons d rest ih =>
    simp only [all_native, List.all_cons, Bool.and_eq_true] at hn
    obtain ⟨hd, hrest⟩ := hn
    have ih1 := ih hrest
    simp only [exceeds_mark] at ih1
    simp only [exceeds_mark, List.any_cons, Bool.or_eq_true, List.mem_cons]
    rw [ih1]
    cases d with
    | none => simp [as_ze_base_event] at hd
    | some e =>
      cases e with
      | other t => simp [as_ze_base_event] at hd
      | ze_event p h qs =>
        simp only [as_ze_base_event, decide_eq_true_eq]
        constructor
        · rintro (h1 | ⟨e, he, hgt⟩)
          · exact ⟨_, Or.inl rfl, h1⟩
          · exact ⟨e, Or.inr he, hgt⟩
        · rintro ⟨e, (he | he), hgt⟩
          · left
            cases he
            exact hgt
          · exact Or.inr ⟨e, he, hgt⟩
      | ze_events qs l es =>
        simp only [as_ze_base_event, decide_eq_true_eq]
        constructor
        · rintro (h1 | ⟨e, he, hgt⟩)
          · exact ⟨_, Or.inl rfl, h1⟩
          · exact ⟨e, Or.inr he, hgt⟩
        · rintro ⟨e, (he | he), hgt⟩
          · left
            cases he
            exact hgt
          · exact Or.inr ⟨e, he, hgt⟩

@[simp] theorem logged_sync_method (s : ze_stream) (l) : (s.logged l).sync_method = s.sync_method := rfl
@[simp] theorem logged_queue_counter (s : ze_stream) (l) : (s.logged l)._queue_counter = s._queue_counter := rfl
@[simp] theorem logged_last_barrier (s : ze_stream) (l) : (s.logged l)._last_barrier = s._last_barrier := rfl
@[simp] theorem logged_last_barrier_ev (s : ze_stream) (l) : (s.logged l)._last_barrier_ev = s._last_barrier_ev := rfl
@[simp] theorem logged_reply (s : ze_stream) (l) : (s.logged l).driver.reply = s.driver.reply := rfl
@[simp] theorem logged_calls (s : ze_stream) (l) : (s.logged l).driver.calls = s.driver.calls ++ l := rfl
@[simp] theorem logged_logged (s : ze_stream) (l l') : (s.logged l).logged l' = s.logged (l ++ l') := by
  simp [ze_stream.logged]
@[simp] theorem logged_status_at (s : ze_stream) (l) (i : Nat) :
    (s.logged l).status_at i = s.status_at (l.length + i) := by
  simp [ze_stream.status_at, ze_stream.logged, Nat.add_assoc]
@[simp] theorem logged_out_at (s : ze_stream) (l) (i : Nat) :
    (s.logged l).out_at i = s.out_at (l.length + i) := by
  simp [ze_stream.out_at, ze_stream.logged, Nat.add_assoc]

theorem api_eq (s : ze_stream) (c : ze_call) :
    s.api c = if s.status_at 0 = 0 then (.ok (s.out_at 0), s.logged [(c, 0)])
      else (.error (.driver (s.status_at 0)), s.logged [(c, s.status_at 0)]) := by
  simp only [ze_stream.api, ze_stream.status_at, ze_stream.out_at, ze_stream.logged, Nat.add_zero]
  split
  · rename_i h
    simp [h]
  · rfl

@[simp] theorem wc_sync_method (s : ze_stream) (c m) : (s.with_counters c m).sync_method = s.sync_method := rfl
@[simp] theorem wc_queue_counter (s : ze_stream) (c m) : (s.with_counters c m)._queue_counter = c := rfl
@[simp] theorem wc_last_barrier (s : ze_stream) (c m) : (s.with_counters c m)._last_barrier = m := rfl
@[simp] theorem wc_last_barrier_ev (s : ze_stream) (c m) : (s.with_counters c m)._last_barrier_ev = s._last_barrier_ev := rfl
@[simp] theorem wc_driver (s : ze_stream) (c m) : (s.with_counters c m).driver = s.driver := rfl
@[simp] theorem wc_status_at (s : ze_stream) (c m) (i : Nat) : (s.with_counters c m).status_at i = s.status_at i := rfl
@[simp] theorem wc_out_at (s : ze_stream) (c m) (i : Nat) : (s.with_counters c m).out_at i = s.out_at i := rfl
@[simp] theorem wc_logged (s : ze_stream) (c m) (l) :
    (s.with_counters c m).logged l = (s.logged l).with_counters c m := rfl
@[simp] theorem wc_wc (s : ze_stream) (c m c' m') :
    (s.with_counters c m).with_counters c' m' = s.with_counters c' m' := rfl
theorem logged_nil (s : ze_stream) : s.logged [] = s := by
  simp [ze_stream.logged]

theorem create_base_event_eq (s : ze_stream) :
    s.create_base_event =
      if s.status_at 0 = 0 then
        if s.status_at 1 = 0 then
          (.ok (.ze_event (s.out_at 0) (s.out_at 1) (incr64 s._queue_counter)),
            (s.logged [(.zeEventPoolCreate, 0), (.zeEventCreate (s.out_at 0), 0)]).with_counters
              (incr64 s._queue_counter) s._last_barrier)
        else (.error (.driver (s.status_at 1)),
          s.logged [(.zeEventPoolCreate, 0), (.zeEventCreate (s.out_at 0), s.status_at 1)])
      else (.error (.driver (s.status_at 0)), s.logged [(.zeEventPoolCreate, s.status_at 0)]) := by
  simp only [ze_stream.create_base_event, api_eq]
  by_cases h0 : s.status_at 0 = 0
  · by_cases h1 : s.status_at 1 = 0
    · simp [h0, h1]
      rfl
    · simp [h0, h1]
  · simp [h0]

theorem create_user_event_eq (s : ze_stream) (set : Bool) :
    s.create_user_event set =
      if s.status_at 0 = 0 then
        if s.status_at 1 = 0 then
          (.ok (.ze_event (s.out_at 0) (s.out_at 1) (if set then 1 else 0)),
            s.logged [(.zeEventPoolCreate, 0), (.zeEventCreate (s.out_at 0), 0)])
        else (.error (.driver (s.status_at 1)),
          s.logged [(.zeEventPoolCreate, 0), (.zeEventCreate (s.out_at 0), s.status_at 1)])
      else (.error (.driver (s.status_at 0)), s.logged [(.zeEventPoolCreate, s.status_at 0)]) := by
  simp only [ze_stream.create_user_event, api_eq]
  by_cases h0 : s.status_at 0 = 0
  · by_cases h1 : s.status_at 1 = 0
    · simp [h0, h1]
    · simp [h0, h1]
  · simp [h0]

theorem enqueue_barrier_eq (s : ze_stream) :
    s.enqueue_barrier =
      if s.status_at 0 = 0 then (.ok (), s.logged [(.zeCommandListAppendBarrier 0 0 [], 0)])
      else (.error (.driver (s.status_at 0)),
        s.logged [(.zeCommandListAppendBarrier 0 0 [], s.status_at 0)]) := by
  simp only [ze_stream.enqueue_barrier, api_eq]
  by_cases h0 : s.status_at 0 = 0 <;> simp [h0]

/-- The value of `dep_events_ptr->size()` and the array passed to the launch. -/
theorem enqueue_kernel_launch_eq (s : ze_stream) (kern : ze_kernel_handle_t)
    (args_desc : kernel_arguments_desc) (ptr : Option (List ze_event_handle_t)) (soe : Bool) :
    s.enqueue_kernel_launch kern args_desc ptr soe =
      if s.status_at 0 = 0 then
        if s.status_at 1 = 0 then
          if s.status_at 2 = 0 then
            if ptr = some [] then
              (.error .out_of_range,
                (s.logged [(.zeEventPoolCreate, 0), (.zeEventCreate (s.out_at 0), 0),
                  (group_size_call kern args_desc, 0)]).with_counters
                  (incr64 s._queue_counter) s._last_barrier)
            else if s.status_at 3 = 0 then
              (.ok (.ze_event (s.out_at 0) (s.out_at 1) (incr64 s._queue_counter)),
                (s.logged [(.zeEventPoolCreate, 0), (.zeEventCreate (s.out_at 0), 0),
                  (group_size_call kern args_desc, 0),
                  (launch_call kern args_desc (if soe then s.out_at 1 else 0) (ptr.getD []), 0)]
                  ).with_counters (incr64 s._queue_counter) s._last_barrier)
            else
              (.error (.driver (s.status_at 3)),
                (s.logged [(.zeEventPoolCreate, 0), (.zeEventCreate (s.out_at 0), 0),
                  (group_size_call kern args_desc, 0),
                  (launch_call kern args_desc (if soe then s.out_at 1 else 0) (ptr.getD []),
                    s.status_at 3)]).with_counters (incr64 s._queue_counter) s._last_barrier)
          else
            (.error (.driver (s.status_at 2)),
              (s.logged [(.zeEventPoolCreate, 0), (.zeEventCreate (s.out_at 0), 0),
                (group_size_call kern args_desc, s.status_at 2)]).with_counters
                (incr64 s._queue_counter) s._last_barrier)
        else (.error (.driver (s.status_at 1)),
          s.logged [(.zeEventPoolCreate, 0), (.zeEventCreate (s.out_at 0), s.status_at 1)])
      else (.error (.driver (s.status_at 0)), s.logged [(.zeEventPoolCreate, s.status_at 0)]) := by
  simp only [ze_stream.enqueue_kernel_launch, create_base_event_eq]
  by_cases h0 : s.status_at 0 = 0
  · by_cases h1 : s.status_at 1 = 0
    · by_cases h2 : s.status_at 2 = 0
      · rcases ptr with _ | (_ | ⟨a, l⟩)
        · by_cases h3 : s.status_at 3 = 0
          · simp [h0, h1, h2, h3, api_eq, group_size_call, launch_call, event.get]
          · simp [h0, h1, h2, h3, api_eq, group_size_call, launch_call, event.get]
        · simp [h0, h1, h2, api_eq, group_size_call, launch_call, event.get]
        · by_cases h3 : s.status_at 3 = 0
          · simp [h0, h1, h2, h3, api_eq, group_size_call, launch_call, event.get]
          · simp [h0, h1, h2, h3, api_eq, group_size_call, launch_call, event.get]
      · simp [h0, h1, h2, api_eq, group_size_call]
    · simp [h0, h1]
  · simp [h0]

theorem sync_events_eq (s : ze_stream) (deps : List event_ptr) (is_output : Bool) :
    s.sync_events deps is_output =
      match sync_events_scan s._last_barrier deps false with
      | .error e => (.error e, s)
      | .ok true =>
        if s.status_at 0 = 0 then
          (.ok (), (s.logged [(sync_barrier_call s is_output, 0)]).with_counters
            (incr64 s._queue_counter) (incr64 s._queue_counter))
        else (.error (.driver (s.status_at 0)),
          s.logged [(sync_barrier_call s is_output, s.status_at 0)])
      | .ok false => (.ok (), s) := by
  simp only [ze_stream.sync_events, api_eq]
  cases sync_events_scan s._last_barrier deps false with
  | error e => rfl
  | ok nb =>
    cases nb with
    | false => simp
    | true =>
      by_cases h0 : s.status_at 0 = 0
      · simp [h0, sync_barrier_call]
        rfl
      · simp [h0, sync_barrier_call]

theorem sync_events_native (s : ze_stream) (deps : List event_ptr) (is_output : Bool)
    (hn : all_native deps = true) :
    s.sync_events deps is_output =
      if exceeds_mark s._last_barrier deps = true then
        if s.status_at 0 = 0 then
          (.ok (), (s.logged [(sync_barrier_call s is_output, 0)]).with_counters
            (incr64 s._queue_counter) (incr64 s._queue_counter))
        else (.error (.driver (s.status_at 0)),
          s.logged [(sync_barrier_call s is_output, s.status_at 0)])
      else (.ok (), s) := by
  rw [sync_events_eq, sync_events_scan_eq _ _ _ hn, Bool.false_or]
  cases exceeds_mark s._last_barrier deps <;> simp

/-! ## Lemmas: how each call moves the stream -/

theorem adv_logged (s : ze_stream) (l) : s.advances (s.logged l) :=
  ⟨l, s._queue_counter, s._last_barrier, rfl, Or.inl ⟨rfl, Or.inl rfl⟩⟩

theorem adv_event (s : ze_stream) (l) :
    s.advances ((s.logged l).with_counters (incr64 s._queue_counter) s._last_barrier) :=
  ⟨l, _, _, rfl, Or.inl ⟨rfl, Or.inr rfl⟩⟩

theorem adv_barrier (s : ze_stream) (l) (h : has_barrier l) :
    s.advances ((s.logged l).with_counters (incr64 s._queue_counter) (incr64 s._queue_counter)) :=
  ⟨l, _, _, rfl, Or.inr ⟨rfl, h, Or.inl rfl⟩⟩

theorem adv_barrier_event (s : ze_stream) (l) (h : has_barrier l) :
    s.advances ((s.logged l).with_counters (incr64 (incr64 s._queue_counter))
      (incr64 s._queue_counter)) :=
  ⟨l, _, _, rfl, Or.inr ⟨rfl, h, Or.inr rfl⟩⟩

theorem adv_self (s : ze_stream) : s.advances s := by
  have h := adv_logged s []
  rwa [logged_nil] at h

theorem has_barrier_append_left {l : List (ze_call × ze_result_t)} (l') (h : has_barrier l) :
    has_barrier (l ++ l') := by
  obtain ⟨b, hb, h1, h2⟩ := h
  exact ⟨b, List.mem_append_left _ hb, h1, h2⟩

theorem has_barrier_append_right (l) {l' : List (ze_call × ze_result_t)} (h : has_barrier l') :
    has_barrier (l ++ l') := by
  obtain ⟨b, hb, h1, h2⟩ := h
  exact ⟨b, List.mem_append_right _ hb, h1, h2⟩

theorem create_user_event_advances (s : ze_stream) (set : Bool) :
    s.advances (s.create_user_event set).2 := by
  rw [create_user_event_eq]
  split_ifs <;> exact adv_logged _ _

theorem enqueue_barrier_advances (s : ze_stream) : s.advances s.enqueue_barrier.2 := by
  rw [enqueue_barrier_eq]
  split_ifs <;> exact adv_logged _ _

theorem enqueue_kernel_launch_advances (s : ze_stream) (kern args_desc ptr soe) :
    s.advances (s.enqueue_kernel_launch kern args_desc ptr soe).2 := by
  rw [enqueue_kernel_launch_eq]
  split_ifs <;> first | exact adv_logged _ _ | exact adv_event _ _

theorem has_barrier_sync (s : ze_stream) (o : Bool) (l) :
    has_barrier ((sync_barrier_call s o, 0) :: l) :=
  ⟨_, List.mem_cons_self _ _, rfl, rfl⟩

theorem sync_events_advances (s : ze_stream) (deps : List event_ptr) (is_output : Bool) :
    s.advances (s.sync_events deps is_output).2 := by
  rw [sync_events_eq]
  split
  · exact adv_self s
  · split_ifs
    · exact adv_barrier _ _ (has_barrier_sync _ _ _)
    · exact adv_logged _ _
  · exact adv_self s

theorem enqueue_kernel_advances (s : ze_stream) (kern args_desc deps is_output) :
    s.advances (s.enqueue_kernel kern args_desc deps is_output).2 := by
  unfold ze_stream.enqueue_kernel
  cases hm : s.sync_method with
  | events => exact enqueue_kernel_launch_advances _ _ _ _ _
  | none => exact enqueue_kernel_launch_advances _ _ _ _ _
  | barriers =>
    simp only
    rw [sync_events_eq]
    cases sync_events_scan s._last_barrier deps false with
    | error e => exact adv_self s
    | ok nb =>
      cases nb with
      | false => exact enqueue_kernel_launch_advances _ _ _ _ _
      | true =>
        by_cases h0 : s.status_at 0 = 0
        · simp only [h0, if_true, enqueue_kernel_launch_eq]
          simp only [logged_status_at, wc_status_at, logged_out_at, wc_out_at, wc_logged,
            logged_logged, wc_wc, wc_queue_counter, wc_last_barrier, List.length_singleton,
            logged_queue_counter, logged_last_barrier]
          split_ifs <;> first
            | exact adv_barrier _ _ (has_barrier_sync _ _ _)
            | exact adv_barrier_event _ _ (has_barrier_sync _ _ _)
        · simp only [h0, if_false]
          exact adv_logged _ _

theorem enqueue_marker_advances (s : ze_stream) (deps is_output) :
    s.advances (s.enqueue_marker deps is_output).2 := by
  unfold ze_stream.enqueue_marker
  split
  · exact create_user_event_advances _ _
  · simp only [api_eq]
    by_cases h0 : s.status_at 0 = 0
    · by_cases h1 : s.status_at 1 = 0
      · simp only [h0, h1, if_true, logged_status_at, List.length_singleton, Nat.add_zero,
          logged_sync_method, logged_logged]
        cases hm : s.sync_method with
        | events =>
          simp only
          split
          · rw [create_user_event_eq]
            simp only [logged_status_at, logged_out_at, logged_logged]
            split_ifs <;> exact adv_logged _ _
          · by_cases h2 : s.status_at 2 = 0
            · simp [h2]
              exact adv_event _ _
            · simp [h2]
              exact adv_logged _ _
        | barriers =>
          simp only
          rw [sync_events_eq]
          cases sync_events_scan (s.logged _)._last_barrier deps false with
          | error e => exact adv_logged _ _
          | ok nb =>
            cases nb with
            | false => exact adv_logged _ _
            | true =>
              by_cases h2 : s.status_at 2 = 0
              · simp [h2]
                exact adv_barrier _ _ (has_barrier_append_right [_, _] (has_barrier_sync _ _ []))
              · simp [h2]
                exact adv_logged _ _
        | none => exact adv_logged _ _
      · simp only [h0, h1, if_true, if_false, logged_status_at, List.length_singleton,
          Nat.add_zero, logged_logged]
        exact adv_logged _ _
    · simp only [h0, if_false]
      exact adv_logged _ _

theorem step_advances (s : ze_stream) (op : stream_op) : s.advances (s.step op).2 := by
  cases op with
  | enqueue_kernel kern args_desc deps is_output => exact enqueue_kernel_advances _ _ _ _ _
  | enqueue_barrier => exact enqueue_barrier_advances _
  | enqueue_marker deps is_output => exact enqueue_marker_advances _ _ _
  | group_events uninit deps => exact adv_self s
  | create_user_event set => exact create_user_event_advances _ _

theorem incr64_of_lt {c : Nat} (h : c + 1 < 2 ^ 64) : incr64 c = c + 1 := by
  unfold incr64
  exact Nat.mod_eq_of_lt h

theorem advances_bounds {s s' : ze_stream} (h : s.advances s')
    (hw : s._queue_counter + 2 < 2 ^ 64) (hi : s._last_barrier ≤ s._queue_counter) :
    s._queue_counter ≤ s'._queue_counter ∧ s'._queue_counter ≤ s._queue_counter + 2 ∧
    s._last_barrier ≤ s'._last_barrier ∧ s'._last_barrier ≤ s'._queue_counter := by
  obtain ⟨l, c, m, rfl, hc⟩ := h
  have h1 : incr64 s._queue_counter = s._queue_counter + 1 := incr64_of_lt (by omega)
  have h2 : incr64 (s._queue_counter + 1) = s._queue_counter + 2 := incr64_of_lt (by omega)
  simp only [wc_queue_counter, wc_last_barrier]
  rw [h1, h2] at hc
  omega

theorem advances_frame {s s' : ze_stream} (h : s.advances s') :
    s'.sync_method = s.sync_method ∧ s'._last_barrier_ev = s._last_barrier_ev ∧
    s'.driver.reply = s.driver.reply := by
  obtain ⟨l, c, m, rfl, _⟩ := h
  exact ⟨rfl, rfl, rfl⟩

theorem run_cons (s : ze_stream) (op : stream_op) (ops : List stream_op) :
    s.run (op :: ops) = (s.step op).2.run ops := rfl

theorem run_sync_method (s : ze_stream) (ops : List stream_op) :
    (s.run ops).sync_method = s.sync_method := by
  induction ops generalizing s with
  | nil => rfl
  | cons op ops ih => rw [run_cons, ih, (advances_frame (step_advances s op)).1]

theorem run_bounds (s : ze_stream) (ops : List stream_op)
    (hw : s._queue_counter + 2 * ops.length < 2 ^ 64)
    (hi : s._last_barrier ≤ s._queue_counter) :
    s._queue_counter ≤ (s.run ops)._queue_counter ∧
    (s.run ops)._queue_counter ≤ s._queue_counter + 2 * ops.length ∧
    s._last_barrier ≤ (s.run ops)._last_barrier ∧
    (s.run ops)._last_barrier ≤ (s.run ops)._queue_counter := by
  induction ops generalizing s with
  | nil => simp [ze_stream.run, hi]
  | cons op ops ih =>
    simp only [List.length_cons] at hw
    have hb := advances_bounds (step_advances s op) (by omega) hi
    have := ih (s.step op).2 (by omega) hb.2.2.2
    rw [run_cons]
    simp only [List.length_cons]
    omega

theorem ctor_ok {config : engine_configuration} {driver : ze_driver} {uninit : ze_event_handle_t}
    {s : ze_stream} (h : ze_stream.ctor config driver uninit = .ok s) :
    s.sync_method = resolve_sync_method config ∧ s._queue_counter = 0 ∧ s._last_barrier = 0 ∧
    s._last_barrier_ev = uninit := by
  unfold ze_stream.ctor at h
  simp only at h
  split at h
  · cases h
  · split at h
    · cases h
    · rename_i hh s1 heq
      obtain ⟨_, _, rfl⟩ := api_ok heq
      cases h
      exact ⟨rfl, rfl, rfl, rfl⟩

theorem ctor_accepted (config : engine_configuration) (driver : ze_driver)
    (uninit : ze_event_handle_t) (ha : (driver.reply driver.calls.length).status = 0) :
    ∃ s, ze_stream.ctor config driver uninit = .ok s := by
  have hg : ¬ (resolve_sync_method config = sync_methods.none ∧
      config.queue_type = queue_types.out_of_order) := by
    rintro ⟨hn, hq⟩
    unfold resolve_sync_method at hn
    rw [hq] at hn
    cases hp : config.enable_profiling <;> simp [hp] at hn
  have h0 : ∀ s : ze_stream, s.driver = driver → s.status_at 0 = 0 := by
    intro s hs
    simp only [ze_stream.status_at, hs, Nat.add_zero, ha]
  unfold ze_stream.ctor
  simp only
  rw [if_neg hg, api_eq, if_pos (h0 _ rfl)]
  exact ⟨_, rfl⟩

theorem enqueue_kernel_launch_ok {s s' : ze_stream} {kern : ze_kernel_handle_t}
    {args_desc : kernel_arguments_desc} {ptr : Option (List ze_event_handle_t)} {soe : Bool}
    {ev : event} (h : s.enqueue_kernel_launch kern args_desc ptr soe = (.ok ev, s')) :
    ptr ≠ some [] ∧ s.accepts 4 ∧
    ev = .ze_event (s.out_at 0) (s.out_at 1) (incr64 s._queue_counter) ∧
    s' = (s.logged [(.zeEventPoolCreate, 0), (.zeEventCreate (s.out_at 0), 0),
      (group_size_call kern args_desc, 0),
      (launch_call kern args_desc (if soe then s.out_at 1 else 0) (ptr.getD []), 0)]
      ).with_counters (incr64 s._queue_counter) s._last_barrier := by
  rw [enqueue_kernel_launch_eq] at h
  by_cases h0 : s.status_at 0 = 0
  swap
  · simp [h0] at h
  by_cases h1 : s.status_at 1 = 0
  swap
  · simp [h0, h1] at h
  by_cases h2 : s.status_at 2 = 0
  swap
  · simp [h0, h1, h2] at h
  by_cases hp : ptr = some []
  · simp [h0, h1, h2, hp] at h
  by_cases h3 : s.status_at 3 = 0
  swap
  · simp [h0, h1, h2, h3, hp] at h
  simp only [h0, h1, h2, h3, hp, if_true, if_false] at h
  obtain ⟨ha, hb⟩ := Prod.mk.inj h
  refine ⟨hp, ?_, (Except.ok.inj ha).symm, hb.symm⟩
  intro i hi
  match i, hi with
  | 0, _ => exact h0
  | 1, _ => exact h1
  | 2, _ => exact h2
  | 3, _ => exact h3

theorem enqueue_kernel_launch_of_accepts (s : ze_stream) (kern : ze_kernel_handle_t)
    (args_desc : kernel_arguments_desc) (ptr : Option (List ze_event_handle_t)) (soe : Bool)
    (hp : ptr ≠ some []) (ha : s.accepts 4) :
    s.enqueue_kernel_launch kern args_desc ptr soe =
      (.ok (.ze_event (s.out_at 0) (s.out_at 1) (incr64 s._queue_counter)),
        (s.logged [(.zeEventPoolCreate, 0), (.zeEventCreate (s.out_at 0), 0),
          (group_size_call kern args_desc, 0),
          (launch_call kern args_desc (if soe then s.out_at 1 else 0) (ptr.getD []), 0)]
          ).with_counters (incr64 s._queue_counter) s._last_barrier) := by
  rw [enqueue_kernel_launch_eq]
  simp [ha 0 (by omega), ha 1 (by omega), ha 2 (by omega), ha 3 (by omega), hp]

theorem enqueue_kernel_barriers_ok {s s' : ze_stream} {kern : ze_kernel_handle_t}
    {args_desc : kernel_arguments_desc} {deps : List event_ptr} {is_output : Bool} {ev : event}
    (hm : s.sync_method = sync_methods.barriers) (hn : all_native deps = true)
    (h : s.enqueue_kernel kern args_desc deps is_output = (.ok ev, s')) :
    (exceeds_mark s._last_barrier deps = true ∧ s.accepts 5 ∧
      ev = .ze_event (s.out_at 1) (s.out_at 2) (incr64 (incr64 s._queue_counter)) ∧
      s' = (s.logged [(sync_barrier_call s is_output, 0), (.zeEventPoolCreate, 0),
        (.zeEventCreate (s.out_at 1), 0), (group_size_call kern args_desc, 0),
        (launch_call kern args_desc (if is_output then s.out_at 2 else 0) [], 0)]
        ).with_counters (incr64 (incr64 s._queue_counter)) (incr64 s._queue_counter)) ∨
    (exceeds_mark s._last_barrier deps = false ∧ s.accepts 4 ∧
      ev = .ze_event (s.out_at 0) (s.out_at 1) (incr64 s._queue_counter) ∧
      s' = (s.logged [(.zeEventPoolCreate, 0), (.zeEventCreate (s.out_at 0), 0),
        (group_size_call kern args_desc, 0),
        (launch_call kern args_desc (if is_output then s.out_at 1 else 0) [], 0)]
        ).with_counters (incr64 s._queue_counter) s._last_barrier) := by
  unfold ze_stream.enqueue_kernel at h
  simp only [hm, sync_events_native _ _ _ hn] at h
  by_cases hx : exceeds_mark s._last_barrier deps = true
  · left
    by_cases h0 : s.status_at 0 = 0
    · simp only [hx, h0, if_true] at h
      obtain ⟨_, ha, hev, hs⟩ := enqueue_kernel_launch_ok h
      simp at hev hs
      refine ⟨hx, ?_, hev, hs⟩
      intro i hi
      match i, hi with
      | 0, _ => exact h0
      | (j + 1), hj =>
        have := ha j (by omega)
        simpa [Nat.add_comm] using this
    · simp only [hx, h0, if_true, if_false] at h
      injection h with h _
      cases h
  · right
    simp only [hx] at h
    obtain ⟨_, ha, hev, hs⟩ := enqueue_kernel_launch_ok h
    simp at hev hs
    exact ⟨by simpa using hx, ha, hev, hs⟩

/-! ## Lemmas: single calls and sequences -/

theorem collect_dep_events_eq_spec (deps : List event_ptr) :
    collect_dep_events deps = spec_wait_list deps := by
  induction deps with
  | nil => rfl
  | cons d rest ih =>
    unfold spec_wait_list at ih ⊢
    cases d with
    | none => simpa [collect_dep_events, as_ze_base_event] using ih
    | some e =>
      cases e with
      | other t => simpa [collect_dep_events, as_ze_base_event, event.is_native] using ih
      | ze_event p h qs =>
        by_cases hh : h = 0
        · simpa [collect_dep_events, as_ze_base_event, event.is_native, event.get, hh] using ih
        · simp [collect_dep_events, as_ze_base_event, event.is_native, event.get, hh, ih]
      | ze_events qs l es =>
        by_cases hh : l = 0
        · simpa [collect_dep_events, as_ze_base_event, event.is_native, event.get, hh] using ih
        · simp [collect_dep_events, as_ze_base_event, event.is_native, event.get, hh, ih]

theorem spec_wait_list_ne_nil {deps : List event_ptr}
    (hd : ∃ e, some e ∈ deps ∧ e.is_native = true ∧ e.get ≠ 0) : spec_wait_list deps ≠ [] := by
  obtain ⟨e, he, hn, hg⟩ := hd
  intro h
  have : e.get ∈ spec_wait_list deps := by
    unfold spec_wait_list
    rw [List.mem_filterMap]
    exact ⟨some e, he, by simp [hn, hg]⟩
  rw [h] at this
  cases this

theorem commands_of_append (l l' : List (ze_call × ze_result_t)) :
    commands_of (l ++ l') = commands_of l ++ commands_of l' := by
  simp [commands_of]

theorem command_buffer_logged (s : ze_stream) (l) :
    (s.logged l).command_buffer = s.command_buffer ++ commands_of l := by
  simp [ze_stream.command_buffer, commands_of_append]

theorem command_buffer_wc (s : ze_stream) (c m) :
    (s.with_counters c m).command_buffer = s.command_buffer := rfl

theorem enqueue_kernel_eq_launch {s : ze_stream} (hm : s.sync_method ≠ sync_methods.barriers)
    (kern : ze_kernel_handle_t) (args_desc : kernel_arguments_desc) (deps : List event_ptr)
    (is_output : Bool) :
    ∃ ptr soe, s.enqueue_kernel kern args_desc deps is_output =
      s.enqueue_kernel_launch kern args_desc ptr soe := by
  unfold ze_stream.enqueue_kernel
  cases h : s.sync_method with
  | events => exact ⟨_, _, rfl⟩
  | barriers => exact absurd h hm
  | none => exact ⟨_, _, rfl⟩

/-- Whatever the strategy, a completed `enqueue_kernel` ran its launch phase from a stream
whose counter is the original one or its increment. -/
theorem enqueue_kernel_ok_launch {s s' : ze_stream} {kern : ze_kernel_handle_t}
    {args_desc : kernel_arguments_desc} {deps : List event_ptr} {is_output : Bool} {ev : event}
    (h : s.enqueue_kernel kern args_desc deps is_output = (.ok ev, s')) :
    ∃ (s1 : ze_stream) (ptr : Option (List ze_event_handle_t)) (soe : Bool),
      s1.enqueue_kernel_launch kern args_desc ptr soe = (.ok ev, s') ∧
      (∃ l, s1.driver.calls = s.driver.calls ++ l) ∧
      (s1._queue_counter = s._queue_counter ∨ s1._queue_counter = incr64 s._queue_counter) := by
  by_cases hm : s.sync_method = sync_methods.barriers
  · unfold ze_stream.enqueue_kernel at h
    simp only [hm] at h
    rw [sync_events_eq] at h
    cases hs : sync_events_scan s._last_barrier deps false with
    | error e => simp [hs] at h
    | ok nb =>
      cases nb with
      | false =>
        simp only [hs] at h
        exact ⟨s, _, _, h, ⟨[], by simp⟩, Or.inl rfl⟩
      | true =>
        simp only [hs] at h
        by_cases h0 : s.status_at 0 = 0
        · simp only [h0, if_true] at h
          exact ⟨_, _, _, h, ⟨_, rfl⟩, Or.inr rfl⟩
        · simp [h0] at h
  · obtain ⟨ptr, soe, he⟩ := enqueue_kernel_eq_launch hm kern args_desc deps is_output
    rw [he] at h
    exact ⟨s, ptr, soe, h, ⟨[], by simp⟩, Or.inl rfl⟩

theorem to_group_count_eq_spec (v : List Nat) (h1 : 1 ≤ v.length) (h3 : v.length ≤ 3) :
    to_group_count v = ⟨spec_extent v 0, spec_extent v 1, spec_extent v 2⟩ := by
  match v, h1, h3 with
  | [a], _, _ => simp [to_group_count, spec_extent]
  | [a, b], _, _ => simp [to_group_count, spec_extent]
  | [a, b, c], _, _ => simp [to_group_count, spec_extent]
  | _ :: _ :: _ :: _ :: _, _, h => simp at h

theorem advances_counter {s s' : ze_stream} (h : s.advances s')
    (hw : s._queue_counter + 2 < 2 ^ 64) :
    s._queue_counter ≤ s'._queue_counter ∧ s'._queue_counter ≤ s._queue_counter + 2 := by
  obtain ⟨l, c, m, rfl, hc⟩ := h
  have h1 : incr64 s._queue_counter = s._queue_counter + 1 := incr64_of_lt (by omega)
  have h2 : incr64 (s._queue_counter + 1) = s._queue_counter + 2 := incr64_of_lt (by omega)
  simp only [wc_queue_counter]
  rw [h1, h2] at hc
  omega

theorem enqueue_kernel_stamp {s s' : ze_stream} {kern : ze_kernel_handle_t}
    {args_desc : kernel_arguments_desc} {deps : List event_ptr} {is_output : Bool} {ev : event}
    (h : s.enqueue_kernel kern args_desc deps is_output = (.ok ev, s'))
    (hw : s._queue_counter + 2 < 2 ^ 64) :
    ev.get_queue_stamp = s'._queue_counter ∧ s._queue_counter < s'._queue_counter := by
  obtain ⟨s1, ptr, soe, hl, _, hc⟩ := enqueue_kernel_ok_launch h
  obtain ⟨_, _, rfl, rfl⟩ := enqueue_kernel_launch_ok hl
  have h1 : incr64 s._queue_counter = s._queue_counter + 1 := incr64_of_lt (by omega)
  have h2 : incr64 (s._queue_counter + 1) = s._queue_counter + 2 := incr64_of_lt (by omega)
  simp only [event.get_queue_stamp, wc_queue_counter, true_and]
  rcases hc with hc | hc
  · rw [hc, h1]
    omega
  · rw [hc, h1, h2]
    omega

theorem enqueue_marker_events_stamp {s s' : ze_stream} {deps : List event_ptr}
    {is_output : Bool} {ev : event}
    (hm : s.sync_method = sync_methods.events) (hd : deps.isEmpty = false)
    (hc : (collect_dep_events deps).isEmpty = false)
    (h : s.enqueue_marker deps is_output = (.ok ev, s'))
    (hw : s._queue_counter + 2 < 2 ^ 64) :
    ev.get_queue_stamp = s'._queue_counter ∧ s._queue_counter < s'._queue_counter := by
  have h1 : incr64 s._queue_counter = s._queue_counter + 1 := incr64_of_lt (by omega)
  have hc' : collect_dep_events deps ≠ [] := by
    intro h
    rw [h] at hc
    cases hc
  unfold ze_stream.enqueue_marker at h
  simp only [hd, api_eq] at h
  by_cases h0 : s.status_at 0 = 0
  swap
  · simp [h0] at h
  by_cases h1' : s.status_at 1 = 0
  swap
  · simp [h0, h1'] at h
  by_cases h2 : s.status_at 2 = 0
  swap
  · simp [h0, h1', h2, hm, hc'] at h
  simp [h0, h1', h2, hm, hc'] at h
  obtain ⟨rfl, rfl⟩ := h
  simp only [event.get_queue_stamp, wc_queue_counter, h1]
  exact ⟨trivial, by omega⟩

theorem result_stamp_map_some {r : Except ze_error event} {x : Nat}
    (h : result_stamp (r.map some) = some x) : ∃ ev, r = .ok ev ∧ ev.get_queue_stamp = x := by
  cases r with
  | error e => simp [Except.map, result_stamp] at h
  | ok ev =>
    simp only [Except.map, result_stamp, Option.some.injEq] at h
    exact ⟨ev, rfl, h⟩

theorem step_stamp {s : ze_stream} {op : stream_op} {x : Nat}
    (hs : op.stamps_from_counter s.sync_method = true)
    (hr : result_stamp (s.step op).1 = some x)
    (hw : s._queue_counter + 2 < 2 ^ 64) :
    x = (s.step op).2._queue_counter ∧ s._queue_counter < x := by
  cases op with
  | enqueue_kernel kern args_desc deps is_output =>
    obtain ⟨ev, he, rfl⟩ := result_stamp_map_some hr
    have h : s.enqueue_kernel kern args_desc deps is_output =
        (.ok ev, (s.enqueue_kernel kern args_desc deps is_output).2) := by
      rw [← he]
    have := enqueue_kernel_stamp h hw
    simp only [ze_stream.step]
    omega
  | enqueue_marker deps is_output =>
    obtain ⟨ev, he, rfl⟩ := result_stamp_map_some hr
    have h : s.enqueue_marker deps is_output =
        (.ok ev, (s.enqueue_marker deps is_output).2) := by
      rw [← he]
    simp only [stream_op.stamps_from_counter, Bool.and_eq_true, decide_eq_true_eq,
      Bool.not_eq_true'] at hs
    have := enqueue_marker_events_stamp hs.1.1 hs.1.2 hs.2 h hw
    simp only [ze_stream.step]
    omega
  | enqueue_barrier => simp [stream_op.stamps_from_counter] at hs
  | group_events uninit deps => simp [stream_op.stamps_from_counter] at hs
  | create_user_event set => simp [stream_op.stamps_from_counter] at hs

theorem counter_stamps_above (s : ze_stream) (ops : List stream_op)
    (hw : s._queue_counter + 2 * ops.length < 2 ^ 64) :
    (∀ x, x ∈ s.counter_stamps ops → s._queue_counter < x) ∧
    (s.counter_stamps ops).Pairwise (fun a b => a < b) := by
  induction ops generalizing s with
  | nil => simp [ze_stream.counter_stamps]
  | cons op ops ih =>
    simp only [List.length_cons] at hw
    have hc := advances_counter (step_advances s op) (by omega)
    have hsm : (s.step op).2.sync_method = s.sync_method :=
      (advances_frame (step_advances s op)).1
    obtain ⟨ih1, ih2⟩ := ih (s.step op).2 (by omega)
    have hhead : ∀ x, x ∈ (if op.stamps_from_counter s.sync_method = true
        then (result_stamp (s.step op).1).toList else []) →
        x = (s.step op).2._queue_counter ∧ s._queue_counter < x := by
      intro x hx
      split_ifs at hx with hs
      · rw [Option.mem_toList] at hx
        exact step_stamp hs hx (by omega)
      · cases hx
    have hp : (if op.stamps_from_counter s.sync_method = true
        then (result_stamp (s.step op).1).toList else []).Pairwise (fun a b => a < b) := by
      split_ifs
      · cases result_stamp (s.step op).1 <;> simp
      · exact List.Pairwise.nil
    simp only [ze_stream.counter_stamps]
    constructor
    · intro x hx
      rw [List.mem_append] at hx
      rcases hx with hx | hx
      · exact (hhead x hx).2
      · have := ih1 x hx
        omega
    · rw [List.pairwise_append]
      refine ⟨hp, ih2, ?_⟩
      intro a ha b hb
      have h1 := (hhead a ha).1
      have h2 := ih1 b hb
      omega

theorem advances_mark {s s' : ze_stream} (h : s.advances s') :
    ∃ l, s'.driver.calls = s.driver.calls ++ l ∧
      (s'._last_barrier = s._last_barrier ∨ has_barrier l) := by
  obtain ⟨l, c, m, rfl, hc⟩ := h
  refine ⟨l, rfl, ?_⟩
  rcases hc with ⟨hm, _⟩ | ⟨_, hb, _⟩
  · exact Or.inl hm
  · exact Or.inr hb

theorem run_mark (s : ze_stream) (ops : List stream_op) :
    ∃ l, (s.run ops).driver.calls = s.driver.calls ++ l ∧
      ((s.run ops)._last_barrier = s._last_barrier ∨ has_barrier l) := by
  induction ops generalizing s with
  | nil => exact ⟨[], by simp [ze_stream.run], Or.inl rfl⟩
  | cons op ops ih =>
    obtain ⟨l1, hl1, h1⟩ := advances_mark (step_advances s op)
    obtain ⟨l2, hl2, h2⟩ := ih (s.step op).2
    refine ⟨l1 ++ l2, ?_, ?_⟩
    · rw [run_cons, hl2, hl1, List.append_assoc]
    · rw [run_cons]
      rcases h2 with h2 | h2
      · rcases h1 with h1 | h1
        · exact Or.inl (h2.trans h1)
        · exact Or.inr (has_barrier_append_left _ h1)
      · exact Or.inr (has_barrier_append_right _ h2)

theorem commands_of_has_barrier {l : List (ze_call × ze_result_t)} (h : has_barrier l) :
    ∃ B b C, b.is_barrier = true ∧ commands_of l = B ++ [b] ++ C := by
  obtain ⟨⟨b, st⟩, hb, h1, h2⟩ := h
  obtain ⟨l1, l2, rfl⟩ := List.append_of_mem hb
  simp only at h1 h2
  subst h2
  refine ⟨commands_of l1, b, commands_of l2, h1, ?_⟩
  have hc : b.is_command = true := by
    cases b <;> simp_all [ze_call.is_barrier, ze_call.is_command]
  rw [commands_of_append]
  simp [commands_of, hc]

theorem command_buffer_eq_of_calls {s s' : ze_stream} {l : List (ze_call × ze_result_t)}
    (h : s'.driver.calls = s.driver.calls ++ l) :
    s'.command_buffer = s.command_buffer ++ commands_of l := by
  simp [ze_stream.command_buffer, h, commands_of_append]

/-! ## The claims -/

/-- C1: for every configuration, the constructor builds a stream whenever the
driver accepts the creation of the command list, and the synchronization
strategy of that stream is `events` if `enable_profiling` is set (whatever the
queue type), `barriers` if profiling is off and the queue is out-of-order, and
`none` if profiling is off and the queue is in-order.  Whatever the driver, a
stream the constructor has built has the strategy so resolved. -/
theorem ctor_resolves_sync_method (config : engine_configuration) (driver : ze_driver)
    (uninit : ze_event_handle_t) (ha : (driver.reply driver.calls.length).status = 0) :
    (∃ s, ze_stream.ctor config driver uninit = .ok s ∧
      (config.enable_profiling = true → s.sync_method = sync_methods.events) ∧
      (config.enable_profiling = false → config.queue_type = queue_types.out_of_order →
        s.sync_method = sync_methods.barriers) ∧
      (config.enable_profiling = false → config.queue_type = queue_types.in_order →
        s.sync_method = sync_methods.none)) ∧
    (∀ (driver1 : ze_driver) (uninit1 : ze_event_handle_t) (s1 : ze_stream),
      ze_stream.ctor config driver1 uninit1 = .ok s1 →
      (config.enable_profiling = true → s1.sync_method = sync_methods.events) ∧
      (config.enable_profiling = false → config.queue_type = queue_types.out_of_order →
        s1.sync_method = sync_methods.barriers) ∧
      (config.enable_profiling = false → config.queue_type = queue_types.in_order →
        s1.sync_method = sync_methods.none)) := by
  have hall : ∀ (driver1 : ze_driver) (uninit1 : ze_event_handle_t) (s1 : ze_stream),
      ze_stream.ctor config driver1 uninit1 = .ok s1 →
      (config.enable_profiling = true → s1.sync_method = sync_methods.events) ∧
      (config.enable_profiling = false → config.queue_type = queue_types.out_of_order →
        s1.sync_method = sync_methods.barriers) ∧
      (config.enable_profiling = false → config.queue_type = queue_types.in_order →
        s1.sync_method = sync_methods.none) := by
    intro driver1 uninit1 s1 h
    rw [(ctor_ok h).1]
    unfold resolve_sync_method
    refine ⟨?_, ?_, ?_⟩
    · intro hp
      simp [hp]
    · intro hp hq
      simp [hp, hq]
    · intro hp hq
      simp [hp, hq]
  obtain ⟨s, hs⟩ := ctor_accepted config driver uninit ha
  exact ⟨⟨s, hs, hall driver uninit s hs⟩, hall⟩

theorem ctor_resolves_sync_method_witness :
    (∃ s, ze_stream.ctor ⟨.in_order, true⟩ accepting_driver 0 = .ok s ∧
      s.sync_method = sync_methods.events) ∧
    (∃ s, ze_stream.ctor ⟨.out_of_order, true⟩ accepting_driver 0 = .ok s ∧
      s.sync_method = sync_methods.events) ∧
    (∃ s, ze_stream.ctor ⟨.out_of_order, false⟩ accepting_driver 0 = .ok s ∧
      s.sync_method = sync_methods.barriers) ∧
    (∃ s, ze_stream.ctor ⟨.in_order, false⟩ accepting_driver 0 = .ok s ∧
      s.sync_method = sync_methods.none) ∧
    ze_stream.ctor scenario_config accepting_driver 0 = .ok (fresh_stream scenario_config) ∧
    ze_stream.ctor profiling_config accepting_driver 0 = .ok (fresh_stream profiling_config) :=
  ⟨(ctor_resolves_sync_method ⟨.in_order, true⟩ accepting_driver 0 rfl).1.imp
      (fun _ h => ⟨h.1, h.2.1 rfl⟩),
   (ctor_resolves_sync_method ⟨.out_of_order, true⟩ accepting_driver 0 rfl).1.imp
      (fun _ h => ⟨h.1, h.2.1 rfl⟩),
   (ctor_resolves_sync_method ⟨.out_of_order, false⟩ accepting_driver 0 rfl).1.imp
      (fun _ h => ⟨h.1, h.2.2.1 rfl rfl⟩),
   (ctor_resolves_sync_method ⟨.in_order, false⟩ accepting_driver 0 rfl).1.imp
      (fun _ h => ⟨h.1, h.2.2.2 rfl rfl⟩),
   rfl, rfl⟩

/-- C2: on a Barrier-strategy stream built by the constructor, take any sequence of
operations `ops1`, then an `enqueue_kernel` call K that completes, then any
sequence `ops2`, then an `enqueue_kernel` call L that completes and lists the
event K returned among its dependencies; all dependency lists hold non-null
native events and the counter has room for every increment.  Then K's launch is
the last command of the buffer when K returns, and in the buffer after L a
barrier command stands after K's launch and before L's launch, which is the
last command. -/
theorem barrier_between_dependent_kernels (config : engine_configuration) (driver : ze_driver)
    (uninit : ze_event_handle_t) (s0 : ze_stream)
    (h0 : ze_stream.ctor config driver uninit = .ok s0)
    (hb : s0.sync_method = sync_methods.barriers)
    (ops1 ops2 : List stream_op)
    (kernK : ze_kernel_handle_t) (argsK : kernel_arguments_desc) (depsK : List event_ptr)
    (outK : Bool)
    (kernL : ze_kernel_handle_t) (argsL : kernel_arguments_desc) (depsL : List event_ptr)
    (outL : Bool)
    (evK evL : event) (s2 s4 : ze_stream)
    (_hn1 : ∀ o, o ∈ ops1 → o.native_deps = true)
    (_hn2 : ∀ o, o ∈ ops2 → o.native_deps = true)
    (hnK : all_native depsK = true) (hnL : all_native depsL = true)
    (hw : 2 * (ops1.length + ops2.length + 2) < 2 ^ 64)
    (hK : (s0.run ops1).enqueue_kernel kernK argsK depsK outK = (.ok evK, s2))
    (hL : (s2.run ops2).enqueue_kernel kernL argsL depsL outL = (.ok evL, s4))
    (hdep : some evK ∈ depsL) :
    ∃ A B C b, b.is_barrier = true ∧
      s2.command_buffer = A ++ [launch_call kernK argsK (if outK then evK.get else 0) []] ∧
      s4.command_buffer = A ++ [launch_call kernK argsK (if outK then evK.get else 0) []] ++
        B ++ [b] ++ C ++ [launch_call kernL argsL (if outL then evL.get else 0) []] := by
  obtain ⟨hsm, hc0, hm0, _⟩ := ctor_ok h0
  -- the stream before K
  have hb1 := run_bounds s0 ops1 (by omega) (by omega)
  have hm1 : (s0.run ops1).sync_method = sync_methods.barriers := by
    rw [run_sync_method, hb]
  have hw1 : (s0.run ops1)._queue_counter + 2 < 2 ^ 64 := by omega
  have i1 : incr64 (s0.run ops1)._queue_counter = (s0.run ops1)._queue_counter + 1 :=
    incr64_of_lt (by omega)
  have i2 : incr64 ((s0.run ops1)._queue_counter + 1) = (s0.run ops1)._queue_counter + 2 :=
    incr64_of_lt (by omega)
  -- K: its launch is the last command, and its stamp is above the mark it leaves
  have hK' : (∃ A, s2.command_buffer =
        A ++ [launch_call kernK argsK (if outK then evK.get else 0) []]) ∧
      s2._last_barrier < evK.get_queue_stamp ∧ s2.sync_method = sync_methods.barriers := by
    rcases enqueue_kernel_barriers_ok hm1 hnK hK with ⟨_, _, rfl, rfl⟩ | ⟨_, _, rfl, rfl⟩
    · refine ⟨⟨(s0.run ops1).command_buffer ++ [sync_barrier_call (s0.run ops1) outK], ?_⟩,
        ?_, hm1⟩
      · simp [command_buffer_wc, command_buffer_logged, commands_of, sync_barrier_call,
          ze_call.is_command, group_size_call, launch_call, event.get]
      · simp only [wc_last_barrier, event.get_queue_stamp, i1, i2]
        omega
    · refine ⟨⟨(s0.run ops1).command_buffer, ?_⟩, ?_, hm1⟩
      · simp [command_buffer_wc, command_buffer_logged, commands_of,
          ze_call.is_command, group_size_call, launch_call, event.get]
      · simp only [wc_last_barrier, logged_last_barrier, event.get_queue_stamp, i1]
        omega
  obtain ⟨⟨A, hA⟩, hlt, hm2⟩ := hK'
  -- the operations between K and L
  obtain ⟨l, hl, hmark⟩ := run_mark s2 ops2
  have hm3 : (s2.run ops2).sync_method = sync_methods.barriers := by
    rw [run_sync_method, hm2]
  have hcb3 := command_buffer_eq_of_calls hl
  -- L
  rcases enqueue_kernel_barriers_ok hm3 hnL hL with ⟨_, _, rfl, rfl⟩ | ⟨hx, _, rfl, rfl⟩
  · refine ⟨A, commands_of l, [], sync_barrier_call (s2.run ops2) outL, rfl, hA, ?_⟩
    rw [command_buffer_wc, command_buffer_logged, hcb3, hA]
    simp [commands_of, sync_barrier_call, ze_call.is_command, group_size_call, launch_call,
      event.get]
  · have hbar : has_barrier l := by
      rcases hmark with hmark | hmark
      · exfalso
        have : exceeds_mark (s2.run ops2)._last_barrier depsL = true :=
          (exceeds_mark_iff _ _ hnL).2 ⟨evK, hdep, by rw [hmark]; exact hlt⟩
        rw [hx] at this
        cases this
      · exact hmark
    obtain ⟨B, b, C, hb', hBC⟩ := commands_of_has_barrier hbar
    refine ⟨A, B, C, b, hb', hA, ?_⟩
    rw [command_buffer_wc, command_buffer_logged, hcb3, hA, hBC]
    simp [commands_of, ze_call.is_command, group_size_call, launch_call, event.get]

theorem barrier_between_dependent_kernels_witness :
    ∃ A B C b, b.is_barrier = true ∧
      scenario_K1.2.command_buffer =
        A ++ [launch_call 7 ⟨⟨[8], [2]⟩⟩ (if false then (event.ze_event 2 3 1).get else 0) []] ∧
      scenario_K2.2.command_buffer =
        A ++ [launch_call 7 ⟨⟨[8], [2]⟩⟩ (if false then (event.ze_event 2 3 1).get else 0) []] ++
          B ++ [b] ++ C ++
          [launch_call 8 ⟨⟨[8], [2]⟩⟩ (if true then (event.ze_event 7 8 3).get else 0) []] :=
  barrier_between_dependent_kernels scenario_config accepting_driver 0
    (fresh_stream scenario_config) rfl rfl [] []
    7 ⟨⟨[8], [2]⟩⟩ [] false 8 ⟨⟨[8], [2]⟩⟩ [some (.ze_event 2 3 1)] true
    (.ze_event 2 3 1) (.ze_event 7 8 3) scenario_K1.2 scenario_K2.2
    (fun _ h => nomatch h) (fun _ h => nomatch h) rfl rfl (by decide) rfl rfl
    (List.mem_singleton.2 rfl)

/-- C3: on a Barrier-strategy stream built by the constructor, after any sequence
of operations and for any next operation (in particular `enqueue_kernel` and
`enqueue_marker`), with non-null native dependencies and a counter that has
room for every increment, the last barrier mark after the operation is at
least its value before. -/
theorem last_barrier_monotone (config : engine_configuration) (driver : ze_driver)
    (uninit : ze_event_handle_t) (s0 : ze_stream)
    (h0 : ze_stream.ctor config driver uninit = .ok s0)
    (_hb : s0.sync_method = sync_methods.barriers)
    (before : List stream_op) (op : stream_op)
    (_hn : ∀ o, o ∈ before ++ [op] → o.native_deps = true)
    (hw : 2 * (before.length + 1) < 2 ^ 64) :
    (s0.run before)._last_barrier ≤ ((s0.run before).step op).2._last_barrier := by
  obtain ⟨_, hc, hm, _⟩ := ctor_ok h0
  have hb := run_bounds s0 before (by omega) (by omega)
  exact (advances_bounds (step_advances (s0.run before) op) (by omega) hb.2.2.2).2.2.1

theorem last_barrier_monotone_witness :
    ((fresh_stream scenario_config).run [.enqueue_kernel 7 ⟨⟨[8], [2]⟩⟩ [] false])._last_barrier ≤
      (((fresh_stream scenario_config).run [.enqueue_kernel 7 ⟨⟨[8], [2]⟩⟩ [] false]).step
        (.enqueue_kernel 8 ⟨⟨[8], [2]⟩⟩ [some (.ze_event 2 3 1)] true)).2._last_barrier :=
  last_barrier_monotone scenario_config accepting_driver 0 (fresh_stream scenario_config) rfl rfl
    [.enqueue_kernel 7 ⟨⟨[8], [2]⟩⟩ [] false]
    (.enqueue_kernel 8 ⟨⟨[8], [2]⟩⟩ [some (.ze_event 2 3 1)] true)
    (by
      intro o ho
      simp only [List.cons_append, List.nil_append, List.mem_cons, List.mem_singleton,
        List.not_mem_nil, or_false] at ho
      rcases ho with rfl | rfl <;> rfl)
    (by decide)

/-- C4: for every stream and every list of non-null native dependencies,
`sync_events` is a no-op (it completes and leaves the whole stream unchanged)
when no dependency stamp exceeds the last barrier mark; it issues exactly one
driver call, a barrier append, when some stamp exceeds the mark; and when the
driver accepts that call, the command buffer grows by exactly one barrier
command if and only if some dependency stamp exceeds the mark. -/
theorem sync_events_barrier_iff (s : ze_stream) (deps : List event_ptr) (is_output : Bool)
    (hn : all_native deps = true) :
    ((¬ ∃ e, some e ∈ deps ∧ e.get_queue_stamp > s._last_barrier) →
      s.sync_events deps is_output = (.ok (), s)) ∧
    ((∃ e, some e ∈ deps ∧ e.get_queue_stamp > s._last_barrier) →
      ∃ b, b.is_barrier = true ∧ (s.sync_events deps is_output).2.driver.calls =
        s.driver.calls ++ [(b, s.status_at 0)]) ∧
    (s.status_at 0 = 0 →
      ∃ s', s.sync_events deps is_output = (.ok (), s') ∧
        ((∃ b, b.is_barrier = true ∧ s'.command_buffer = s.command_buffer ++ [b]) ↔
          ∃ e, some e ∈ deps ∧ e.get_queue_stamp > s._last_barrier)) := by
  rw [← exceeds_mark_iff _ _ hn, sync_events_native _ _ _ hn]
  refine ⟨?_, ?_, ?_⟩
  · intro hx
    simp [hx]
  · intro hx
    refine ⟨sync_barrier_call s is_output, rfl, ?_⟩
    simp only [hx, if_true]
    split_ifs with h0
    · simp [h0]
    · simp
  · intro h0
    by_cases hx : exceeds_mark s._last_barrier deps = true
    · simp only [hx, h0, if_true]
      refine ⟨_, rfl, ?_⟩
      simp only [iff_true]
      refine ⟨sync_barrier_call s is_output, rfl, ?_⟩
      simp [command_buffer_wc, command_buffer_logged, commands_of, sync_barrier_call,
        ze_call.is_command]
    · simp only [hx, if_false]
      refine ⟨_, rfl, ?_⟩
      simp [hx]

theorem sync_events_barrier_iff_witness :
    all_native [some (.ze_event 1 2 1)] = true ∧
    ∃ b, b.is_barrier = true ∧
      ((fresh_stream scenario_config).sync_events [some (.ze_event 1 2 1)] false).2.driver.calls =
        (fresh_stream scenario_config).driver.calls ++
          [(b, (fresh_stream scenario_config).status_at 0)] :=
  ⟨rfl, (sync_events_barrier_iff (fresh_stream scenario_config) [some (.ze_event 1 2 1)]
    false rfl).2.1 ⟨.ze_event 1 2 1, List.mem_singleton.2 rfl, by decide⟩⟩

/-- C5: on an Event-strategy stream, for a dependency list holding at least one
native event with a non-null handle, and a driver that accepts the four calls
of `enqueue_kernel`, the call completes and appends one launch command whose
wait-list is exactly the handles of the native dependencies with a non-null
handle, in order, and whose signal event is the handle of the returned event. -/
theorem enqueue_kernel_events_wait_list (s : ze_stream) (kern : ze_kernel_handle_t)
    (args_desc : kernel_arguments_desc) (deps : List event_ptr) (is_output : Bool)
    (hm : s.sync_method = sync_methods.events)
    (hd : ∃ e, some e ∈ deps ∧ e.is_native = true ∧ e.get ≠ 0)
    (ha : s.accepts 4) :
    ∃ ev s', s.enqueue_kernel kern args_desc deps is_output = (.ok ev, s') ∧
      s'.command_buffer = s.command_buffer ++
        [.zeCommandListAppendLaunchKernel kern (to_group_count args_desc.workGroups.global)
          ev.get (spec_wait_list deps).length (spec_wait_list deps)] := by
  have hne := spec_wait_list_ne_nil hd
  have hp : some (collect_dep_events deps) ≠ some [] := by
    rw [collect_dep_events_eq_spec]
    intro h
    exact hne (Option.some.inj h)
  have hk : s.enqueue_kernel kern args_desc deps is_output =
      s.enqueue_kernel_launch kern args_desc (some (collect_dep_events deps)) true := by
    unfold ze_stream.enqueue_kernel
    simp [hm]
  have heq := enqueue_kernel_launch_of_accepts s kern args_desc _ true hp ha
  rw [← hk] at heq
  refine ⟨_, _, heq, ?_⟩
  rw [command_buffer_wc, command_buffer_logged, collect_dep_events_eq_spec]
  simp [commands_of, ze_call.is_command, group_size_call, launch_call, event.get]

theorem enqueue_kernel_events_wait_list_witness :
    ∃ ev s', (fresh_stream profiling_config).enqueue_kernel 7 ⟨⟨[8], [2]⟩⟩
        [some (.ze_event 1 5 1), none, some (.other 0), some (.ze_event 1 0 2),
          some (.ze_events 4 6 [])] false = (.ok ev, s') ∧
      s'.command_buffer = (fresh_stream profiling_config).command_buffer ++
        [.zeCommandListAppendLaunchKernel 7 (to_group_count [8]) ev.get
          (spec_wait_list [some (.ze_event 1 5 1), none, some (.other 0), some (.ze_event 1 0 2),
            some (.ze_events 4 6 [])]).length
          (spec_wait_list [some (.ze_event 1 5 1), none, some (.other 0), some (.ze_event 1 0 2),
            some (.ze_events 4 6 [])])] :=
  enqueue_kernel_events_wait_list (fresh_stream profiling_config) 7 ⟨⟨[8], [2]⟩⟩ _ false rfl
    ⟨.ze_event 1 5 1, List.mem_cons_self _ _, rfl, by decide⟩ (fun _ _ => rfl)

example : spec_wait_list [some (.ze_event 1 5 1), none, some (.other 0), some (.ze_event 1 0 2),
            some (.ze_events 4 6 [])] = [5, 6] := by decide

/-- On an Event-strategy stream `enqueue_kernel` with an empty dependency list never
completes: whatever the driver answers it ends in an error, and when the driver
accepts the three calls issued before the launch the error is the
`std::out_of_range` of `dep_events_ptr->at(0)` (ze_stream.cpp:221). -/
theorem enqueue_kernel_events_no_deps (s : ze_stream) (kern : ze_kernel_handle_t)
    (args_desc : kernel_arguments_desc) (is_output : Bool)
    (hm : s.sync_method = sync_methods.events) :
    (∀ ev, (s.enqueue_kernel kern args_desc [] is_output).1 ≠ .ok ev) ∧
    (s.accepts 3 → (s.enqueue_kernel kern args_desc [] is_output).1 = .error .out_of_range) := by
  have hk : s.enqueue_kernel kern args_desc [] is_output =
      s.enqueue_kernel_launch kern args_desc (some []) true := by
    unfold ze_stream.enqueue_kernel
    simp [hm, collect_dep_events]
  rw [hk]
  constructor
  · intro ev hev
    have : s.enqueue_kernel_launch kern args_desc (some []) true =
        (.ok ev, (s.enqueue_kernel_launch kern args_desc (some []) true).2) := by
      rw [← hev]
    exact (enqueue_kernel_launch_ok this).1 rfl
  · intro ha
    rw [enqueue_kernel_launch_eq]
    simp [ha 0 (by omega), ha 1 (by omega), ha 2 (by omega)]

/-- C6 (the code at the failing input): on the fresh stream built with
`enable_profiling = true`, `enqueue_kernel` with an empty dependency list throws
`std::out_of_range` and appends no command, although the driver accepts every
call. -/
theorem enqueue_kernel_events_no_deps_throws :
    ze_stream.ctor profiling_config accepting_driver 0 = .ok (fresh_stream profiling_config) ∧
    ((fresh_stream profiling_config).enqueue_kernel 7 ⟨⟨[8], [2]⟩⟩ [] false).1 = .error .out_of_range ∧
    ((fresh_stream profiling_config).enqueue_kernel 7 ⟨⟨[8], [2]⟩⟩ [] false).2.command_buffer = [] :=
  ⟨rfl, rfl, rfl⟩

/-- C7: for every strategy and every stream from which `enqueue_kernel` completes,
the queue stamp of the returned event is the queue counter right after the
call, and that value is strictly above the counter before the call (the counter
being at least two increments below `2 ^ 64`, so that no increment wraps). -/
theorem enqueue_kernel_stamp_is_counter (s s' : ze_stream) (kern : ze_kernel_handle_t)
    (args_desc : kernel_arguments_desc) (deps : List event_ptr) (is_output : Bool) (ev : event)
    (h : s.enqueue_kernel kern args_desc deps is_output = (.ok ev, s'))
    (hw : s._queue_counter + 2 < 2 ^ 64) :
    ev.get_queue_stamp = s'._queue_counter ∧ s._queue_counter < s'._queue_counter := by
  obtain ⟨s1, ptr, soe, hl, _, hc⟩ := enqueue_kernel_ok_launch h
  obtain ⟨_, _, rfl, rfl⟩ := enqueue_kernel_launch_ok hl
  have h1 : incr64 s._queue_counter = s._queue_counter + 1 := incr64_of_lt (by omega)
  have h2 : incr64 (s._queue_counter + 1) = s._queue_counter + 2 := incr64_of_lt (by omega)
  simp only [event.get_queue_stamp, wc_queue_counter, true_and]
  rcases hc with hc | hc
  · rw [hc, h1]
    omega
  · rw [hc, h1, h2]
    omega

theorem enqueue_kernel_stamp_is_counter_witness :
    scenario_K2.1 = .ok (.ze_event 7 8 3) ∧
    (event.ze_event 7 8 3).get_queue_stamp = scenario_K2.2._queue_counter ∧
    scenario_K1.2._queue_counter < scenario_K2.2._queue_counter :=
  ⟨rfl, enqueue_kernel_stamp_is_counter scenario_K1.2 scenario_K2.2 8 ⟨⟨[8], [2]⟩⟩
    [some (.ze_event 2 3 1)] true (.ze_event 7 8 3) rfl (by decide)⟩

/-- C8 (counterexample): in the scenario of the specification (fresh stream with
an out-of-order queue and no profiling, K1 without dependencies, then K2 with
the event of K1 and `is_output = true`) the event of K1 has stamp 1, the mark
after K2 is 2, and the event K2 returns has stamp 3, not the mark. -/
theorem scenario_K2_stamp_is_not_mark :
    ze_stream.ctor scenario_config accepting_driver 0 = .ok (fresh_stream scenario_config) ∧
    scenario_K1.1.toOption.map event.get_queue_stamp = some 1 ∧
    scenario_K2.2._last_barrier = 2 ∧
    scenario_K2.1.toOption.map event.get_queue_stamp = some 3 ∧
    scenario_K2.1.toOption.map event.get_queue_stamp ≠ some scenario_K2.2._last_barrier :=
  ⟨rfl, rfl, rfl, rfl, by decide⟩

/-- C8 (amended): on a Barrier-strategy stream, when `enqueue_kernel` is called with
`is_output = true` and a native dependency whose stamp exceeds the last barrier
mark, and completes, the mark becomes the old counter plus one, the buffer
gains a barrier followed by the launch, and the returned event is not the
barrier's: it is the event newly created in this call (pool and handle are the
ones the driver wrote to the call's pool and event creation), which the launch
signals; its stamp is the new mark plus one, which is also the new counter. -/
theorem enqueue_kernel_output_after_barrier (s s' : ze_stream) (kern : ze_kernel_handle_t)
    (args_desc : kernel_arguments_desc) (deps : List event_ptr) (ev : event)
    (hm : s.sync_method = sync_methods.barriers) (hn : all_native deps = true)
    (hx : ∃ e, some e ∈ deps ∧ e.get_queue_stamp > s._last_barrier)
    (h : s.enqueue_kernel kern args_desc deps true = (.ok ev, s'))
    (hw : s._queue_counter + 2 < 2 ^ 64) :
    s'._last_barrier = s._queue_counter + 1 ∧
    ev = .ze_event (s.out_at 1) (s.out_at 2) (s'._last_barrier + 1) ∧
    s'._queue_counter = s'._last_barrier + 1 ∧
    ∃ b, b.is_barrier = true ∧ s'.command_buffer = s.command_buffer ++
      [b, .zeCommandListAppendLaunchKernel kern (to_group_count args_desc.workGroups.global)
        ev.get 0 []] := by
  have h1 : incr64 s._queue_counter = s._queue_counter + 1 := incr64_of_lt (by omega)
  have h2 : incr64 (s._queue_counter + 1) = s._queue_counter + 2 := incr64_of_lt (by omega)
  rw [← exceeds_mark_iff _ _ hn] at hx
  rcases enqueue_kernel_barriers_ok hm hn h with ⟨_, _, rfl, rfl⟩ | ⟨hx', _⟩
  · rw [h1, h2]
    refine ⟨rfl, rfl, rfl, sync_barrier_call s true, rfl, ?_⟩
    simp [command_buffer_wc, command_buffer_logged, commands_of, sync_barrier_call,
      ze_call.is_command, group_size_call, launch_call, event.get]
  · rw [hx] at hx'
    cases hx'

theorem enqueue_kernel_output_after_barrier_witness :
    scenario_K2.2._last_barrier = 2 ∧
    scenario_K2.1 = .ok (.ze_event 7 8 3) :=
  have h := enqueue_kernel_output_after_barrier scenario_K1.2 scenario_K2.2 8 ⟨⟨[8], [2]⟩⟩
    [scenario_K1.1.toOption] (.ze_event 7 8 3) rfl rfl
    ⟨.ze_event 2 3 1, List.mem_singleton.2 rfl, by decide⟩ rfl (by decide)
  ⟨h.1, rfl⟩

/-- C9 (counterexample): on a fresh Barrier-strategy stream, after a kernel whose
event has stamp 1, two calls of `enqueue_marker` on that event return events
that both carry stamp 2 (the last barrier mark); and `enqueue_marker` on an
empty group, called on the fresh stream, returns an event with the reserved
stamp 0. -/
theorem marker_stamps_repeat :
    ze_stream.ctor scenario_config accepting_driver 0 = .ok (fresh_stream scenario_config) ∧
    ((fresh_stream scenario_config).run_results marker_ops).map result_stamp =
      [some 1, some 2, some 2] ∧
    ((fresh_stream scenario_config).run_results
      [.enqueue_marker [some (ze_events.ctor 0 [])] false]).map result_stamp = [some 0] :=
  ⟨rfl, rfl, rfl⟩

/-- C9 (amended): on a stream built by the constructor, whatever the strategy, the
events returned by `enqueue_kernel` and by the Event-strategy barrier path of
`enqueue_marker`, over any sequence of operations that leaves the counter room
for every increment, have strictly increasing queue stamps in order of
creation, hence pairwise distinct ones, and none has stamp 0. -/
theorem counter_stamps_strictly_increasing (config : engine_configuration) (driver : ze_driver)
    (uninit : ze_event_handle_t) (s0 : ze_stream)
    (h0 : ze_stream.ctor config driver uninit = .ok s0)
    (ops : List stream_op) (hw : 2 * ops.length < 2 ^ 64) :
    (s0.counter_stamps ops).Pairwise (fun a b => a < b) ∧
    (s0.counter_stamps ops).Nodup ∧
    ∀ x, x ∈ s0.counter_stamps ops → x ≠ 0 := by
  obtain ⟨_, hc, _, _⟩ := ctor_ok h0
  obtain ⟨h1, h2⟩ := counter_stamps_above s0 ops (by omega)
  refine ⟨h2, ?_, ?_⟩
  · exact h2.imp (fun h => Nat.ne_of_lt h)
  · intro x hx
    have := h1 x hx
    omega

theorem counter_stamps_strictly_increasing_witness :
    (fresh_stream scenario_config).counter_stamps scenario_ops = [1, 3] ∧
    ((fresh_stream scenario_config).counter_stamps scenario_ops).Pairwise (fun a b => a < b) :=
  ⟨rfl, (counter_stamps_strictly_increasing scenario_config accepting_driver 0 _ rfl
    scenario_ops (by decide)).1⟩

/-- C10: for every global and local work size of one to three dimensions, a
completed `enqueue_kernel` has issued, as its last two driver calls, the group
size call with the local extents (each reduced to 32 bits, padded with 1) and
the launch whose group count is the global extents (each reduced to 32 bits,
padded with 1); the group count does not depend on the local size. -/
theorem enqueue_kernel_geometry (s s' : ze_stream) (kern : ze_kernel_handle_t)
    (args_desc : kernel_arguments_desc) (deps : List event_ptr) (is_output : Bool) (ev : event)
    (hg : 1 ≤ args_desc.workGroups.global.length ∧ args_desc.workGroups.global.length ≤ 3)
    (hl : 1 ≤ args_desc.workGroups.local.length ∧ args_desc.workGroups.local.length ≤ 3)
    (h : s.enqueue_kernel kern args_desc deps is_output = (.ok ev, s')) :
    ∃ before hSignalEvent waits, s'.driver.calls = s.driver.calls ++ before ++
      [(.zeKernelSetGroupSize kern (spec_extent args_desc.workGroups.local 0)
          (spec_extent args_desc.workGroups.local 1) (spec_extent args_desc.workGroups.local 2), 0),
       (.zeCommandListAppendLaunchKernel kern
          ⟨spec_extent args_desc.workGroups.global 0, spec_extent args_desc.workGroups.global 1,
            spec_extent args_desc.workGroups.global 2⟩ hSignalEvent waits.length waits, 0)] := by
  obtain ⟨s1, ptr, soe, hl1, ⟨l, hcalls⟩, _⟩ := enqueue_kernel_ok_launch h
  obtain ⟨_, _, _, rfl⟩ := enqueue_kernel_launch_ok hl1
  refine ⟨l ++ [(.zeEventPoolCreate, 0), (.zeEventCreate (s1.out_at 0), 0)],
    (if soe then s1.out_at 1 else 0), ptr.getD [], ?_⟩
  simp only [wc_driver, logged_calls, hcalls, group_size_call, launch_call,
    to_group_count_eq_spec _ hg.1 hg.2, to_group_count_eq_spec _ hl.1 hl.2]
  simp

theorem enqueue_kernel_geometry_witness :
    scenario_K1.2.driver.calls = (fresh_stream scenario_config).driver.calls ++
      [(.zeEventPoolCreate, 0), (.zeEventCreate 2, 0), (.zeKernelSetGroupSize 7 2 1 1, 0),
       (.zeCommandListAppendLaunchKernel 7 ⟨8, 1, 1⟩ 0 0 [], 0)] ∧
    ∃ before hSignalEvent waits, scenario_K1.2.driver.calls =
      (fresh_stream scenario_config).driver.calls ++ before ++
      [(.zeKernelSetGroupSize 7 (spec_extent [2] 0) (spec_extent [2] 1) (spec_extent [2] 2), 0),
       (.zeCommandListAppendLaunchKernel 7
          ⟨spec_extent [8] 0, spec_extent [8] 1, spec_extent [8] 2⟩
          hSignalEvent waits.length waits, 0)] :=
  ⟨rfl, enqueue_kernel_geometry (fresh_stream scenario_config) scenario_K1.2 7 ⟨⟨[8], [2]⟩⟩ []
    false (.ze_event 2 3 1) (by decide) (by decide) rfl⟩

/-! ## Lemmas for markers, launch geometry and composite events -/

theorem enqueue_marker_eq (s : ze_stream) (deps : List event_ptr) (is_output : Bool) :
    s.enqueue_marker deps is_output =
      if deps.isEmpty then s.create_user_event true
      else if s.status_at 0 = 0 then
        if s.status_at 1 = 0 then
          match s.sync_method with
          | .events =>
            if collect_dep_events deps = [] then
              (s.logged [(.zeEventPoolCreate, 0), (.zeEventCreate (s.out_at 0), 0)]
                ).create_user_event true
            else if s.status_at 2 = 0 then
              (.ok (.ze_event (s.out_at 0) (s.out_at 1) (incr64 s._queue_counter)),
                (s.logged [(.zeEventPoolCreate, 0), (.zeEventCreate (s.out_at 0), 0),
                  (.zeCommandListAppendBarrier (s.out_at 1) 0 [], 0)]).with_counters
                  (incr64 s._queue_counter) s._last_barrier)
            else
              (.error (.driver (s.status_at 2)),
                s.logged [(.zeEventPoolCreate, 0), (.zeEventCreate (s.out_at 0), 0),
                  (.zeCommandListAppendBarrier (s.out_at 1) 0 [], s.status_at 2)])
          | .barriers =>
            match (s.logged [(.zeEventPoolCreate, 0), (.zeEventCreate (s.out_at 0), 0)]
                ).sync_events deps is_output with
            | (.error e, s3) => (.error e, s3)
            | (.ok _, s3) =>
              (.ok (.ze_event (s.out_at 0) s3._last_barrier_ev s3._last_barrier), s3)
          | .none =>
            (.ok (.ze_event (s.out_at 0) (s.out_at 1) 1),
              s.logged [(.zeEventPoolCreate, 0), (.zeEventCreate (s.out_at 0), 0)])
        else (.error (.driver (s.status_at 1)),
          s.logged [(.zeEventPoolCreate, 0), (.zeEventCreate (s.out_at 0), s.status_at 1)])
      else (.error (.driver (s.status_at 0)), s.logged [(.zeEventPoolCreate, s.status_at 0)]) := by
  unfold ze_stream.enqueue_marker
  by_cases hd : deps.isEmpty = true
  · simp [hd]
  simp only [hd, api_eq]
  by_cases h0 : s.status_at 0 = 0
  swap
  · simp [h0]
  by_cases h1 : s.status_at 1 = 0
  swap
  · simp [h0, h1]
  simp only [h0, h1, if_true, logged_status_at, List.length_singleton, Nat.add_zero,
    logged_sync_method, logged_logged, logged_out_at]
  cases hm : s.sync_method with
  | events =>
    simp only
    by_cases hc : collect_dep_events deps = []
    · simp [hc]
    · by_cases h2 : s.status_at 2 = 0
      · simp [hc, h2]
        rfl
      · simp [hc, h2]
  | barriers => rfl
  | none => simp

theorem to_group_count_malformed (v : List Nat) (h : 3 < v.length) :
    to_group_count v = ⟨0, 0, 0⟩ := by
  match v, h with
  | _ :: _ :: _ :: _ :: _, _ => rfl

theorem visit_events (m : ze_events_members) (p : event_ptr) :
    (ze_events.visit m p)._events = m._events ++ [p] := by
  unfold ze_events.visit
  split
  · split <;> rfl
  · rfl

theorem foldl_visit_events (m : ze_events_members) (ps : List event_ptr) :
    (ps.foldl ze_events.visit m)._events = m._events ++ ps := by
  induction ps generalizing m with
  | nil => simp
  | cons p ps ih => simp [List.foldl_cons, ih, visit_events]

theorem process_events_eq (m : ze_events_members) (ev : List event_ptr) :
    ze_events.process_events m ev = (spec_flatten ev).foldl ze_events.visit m := by
  unfold ze_events.process_events
  induction ev generalizing m with
  | nil => rfl
  | cons p ps ih =>
    simp only [List.foldl_cons, spec_flatten, List.foldl_append]
    rw [ih]
    congr 1
    cases p with
    | none => simp [spec_members]
    | some e => cases e <;> simp [spec_members]

theorem visit_invariant {m : ze_events_members} {seen : List (ze_event_handle_t × Nat)}
    (h : leaf_invariant m seen) (p : event_ptr) :
    leaf_invariant (ze_events.visit m p) (seen ++ (as_ze_event p).toList) := by
  obtain ⟨h1, h2, h3⟩ := h
  unfold ze_events.visit
  cases hp : as_ze_event p with
  | none =>
    show leaf_invariant _ (seen ++ [])
    rw [List.append_nil]
    exact ⟨h1, h2, h3⟩
  | some leaf =>
    obtain ⟨hd, q⟩ := leaf
    simp only [Option.toList]
    by_cases hc : m._queue_stamp = 0 ∨ q > m._queue_stamp
    · simp only [hc, if_true]
      refine ⟨?_, ?_, ?_⟩
      · intro leaf hl
        rw [List.mem_append, List.mem_singleton] at hl
        rcases hl with hl | hl
        · have := h1 leaf hl
          show leaf.2 ≤ q
          omega
        · rw [hl]
      · intro hnil
        simp at hnil
      · intro _
        exact ⟨(hd, q), by simp, rfl, rfl⟩
    · simp only [hc, if_false]
      have hne : seen ≠ [] := by
        intro hnil
        exact hc (Or.inl (h2 hnil))
      refine ⟨?_, ?_, ?_⟩
      · intro leaf hl
        rw [List.mem_append, List.mem_singleton] at hl
        rcases hl with hl | hl
        · exact h1 leaf hl
        · rw [hl]
          show q ≤ m._queue_stamp
          omega
      · intro hnil
        simp at hnil
      · intro _
        obtain ⟨leaf, hl, e1, e2⟩ := h3 hne
        exact ⟨leaf, List.mem_append_left _ hl, e1, e2⟩

theorem foldl_visit_invariant {m : ze_events_members} {seen : List (ze_event_handle_t × Nat)}
    (h : leaf_invariant m seen) (ps : List event_ptr) :
    leaf_invariant (ps.foldl ze_events.visit m) (seen ++ ps.filterMap as_ze_event) := by
  induction ps generalizing m seen with
  | nil => simpa using h
  | cons p ps ih =>
    have := ih (visit_invariant h p)
    rw [List.append_assoc] at this
    rw [List.foldl_cons]
    cases hp : as_ze_event p with
    | none => simpa [List.filterMap_cons, hp] using this
    | some leaf => simpa [List.filterMap_cons, hp] using this

theorem ctor_events (uninit : ze_event_handle_t) (ev : List event_ptr) :
    (ze_events.ctor uninit ev)._events = spec_flatten ev := by
  simp only [ze_events.ctor, event._events, process_events_eq, foldl_visit_events,
    List.nil_append]

mutual
theorem build_members (t : event_tree) :
    spec_members (some t.build) = t.leaves.map some := by
  cases t with
  | simple p h q => rfl
  | group u inputs =>
    have h := build_list_flatten inputs
    have hc := ctor_events u (event_tree.build_list inputs)
    simp only [event_tree.build, event_tree.leaves]
    rw [← h, ← hc]
    rfl
theorem build_list_flatten (ts : List event_tree) :
    spec_flatten (event_tree.build_list ts) = (event_tree.leaves_list ts).map some := by
  cases ts with
  | nil => rfl
  | cons t ts =>
    simp only [event_tree.build_list, event_tree.leaves_list, spec_flatten, List.map_append]
    rw [build_members t, build_list_flatten ts]
end

mutual
theorem leaves_simple (t : event_tree) (e : event) (he : e ∈ t.leaves) :
    ∃ pool h q, e = .ze_event pool h q := by
  cases t with
  | simple p h q =>
    simp only [event_tree.leaves, List.mem_singleton] at he
    exact ⟨p, h, q, he⟩
  | group u inputs =>
    simp only [event_tree.leaves] at he
    exact leaves_list_simple inputs e he
theorem leaves_list_simple (ts : List event_tree) (e : event)
    (he : e ∈ event_tree.leaves_list ts) : ∃ pool h q, e = .ze_event pool h q := by
  cases ts with
  | nil => cases he
  | cons t ts =>
    simp only [event_tree.leaves_list, List.mem_append] at he
    rcases he with he | he
    · exact leaves_simple t e he
    · exact leaves_list_simple ts e he
end

/-! ## The claims, continued -/

/-- C11 (amended): a work size of more than three dimensions is not rejected.
`to_group_count` maps it to the triple (0, 0, 0), and an `enqueue_kernel` call
that completes has issued both driver calls with what `to_group_count` gives:
the set-group-size call (zeros when the local size has more than three
dimensions) and the launch (group count zero when the global size has). -/
theorem enqueue_kernel_malformed_geometry (s s' : ze_stream) (kern : ze_kernel_handle_t)
    (args_desc : kernel_arguments_desc) (deps : List event_ptr) (is_output : Bool) (ev : event)
    (_hd : 3 < args_desc.workGroups.global.length ∨ 3 < args_desc.workGroups.local.length)
    (h : s.enqueue_kernel kern args_desc deps is_output = (.ok ev, s')) :
    (∃ before hSignalEvent waits, s'.driver.calls = s.driver.calls ++ before ++
        [(.zeKernelSetGroupSize kern (to_group_count args_desc.workGroups.local).groupCountX
            (to_group_count args_desc.workGroups.local).groupCountY
            (to_group_count args_desc.workGroups.local).groupCountZ, 0),
         (.zeCommandListAppendLaunchKernel kern (to_group_count args_desc.workGroups.global)
            hSignalEvent waits.length waits, 0)]) ∧
      (3 < args_desc.workGroups.global.length →
        to_group_count args_desc.workGroups.global = ⟨0, 0, 0⟩) ∧
      (3 < args_desc.workGroups.local.length →
        to_group_count args_desc.workGroups.local = ⟨0, 0, 0⟩) := by
  obtain ⟨s1, ptr, soe, hl1, ⟨l, hcalls⟩, _⟩ := enqueue_kernel_ok_launch h
  obtain ⟨_, _, _, rfl⟩ := enqueue_kernel_launch_ok hl1
  refine ⟨⟨l ++ [(.zeEventPoolCreate, 0), (.zeEventCreate (s1.out_at 0), 0)],
    (if soe then s1.out_at 1 else 0), ptr.getD [], ?_⟩, to_group_count_malformed _,
    to_group_count_malformed _⟩
  simp only [wc_driver, logged_calls, hcalls, group_size_call, launch_call]
  simp

theorem enqueue_kernel_malformed_geometry_witness :
    (∃ before hSignalEvent waits,
      ((fresh_stream scenario_config).enqueue_kernel 7 ⟨⟨[1, 2, 3, 4], [1, 1, 1, 1]⟩⟩ []
        false).2.driver.calls = (fresh_stream scenario_config).driver.calls ++ before ++
        [(.zeKernelSetGroupSize 7 (to_group_count [1, 1, 1, 1]).groupCountX
            (to_group_count [1, 1, 1, 1]).groupCountY
            (to_group_count [1, 1, 1, 1]).groupCountZ, 0),
         (.zeCommandListAppendLaunchKernel 7 (to_group_count [1, 2, 3, 4])
            hSignalEvent waits.length waits, 0)]) ∧
      (3 < [1, 2, 3, 4].length → to_group_count [1, 2, 3, 4] = ⟨0, 0, 0⟩) ∧
      (3 < [1, 1, 1, 1].length → to_group_count [1, 1, 1, 1] = ⟨0, 0, 0⟩) :=
  enqueue_kernel_malformed_geometry (fresh_stream scenario_config) _ 7
    ⟨⟨[1, 2, 3, 4], [1, 1, 1, 1]⟩⟩ [] false (.ze_event 2 3 1) (Or.inl (by decide)) rfl

/-- C11 (counterexample): on the fresh stream of the scenario, `enqueue_kernel` with
a four-dimensional global and local size completes, having issued the
set-group-size call with (0, 0, 0) and the launch with group count (0, 0, 0). -/
theorem malformed_geometry_reaches_driver :
    (fresh_stream scenario_config).enqueue_kernel 7 ⟨⟨[1, 2, 3, 4], [1, 1, 1, 1]⟩⟩ [] false =
      (.ok (.ze_event 2 3 1),
        ((fresh_stream scenario_config).logged
          [(.zeEventPoolCreate, 0), (.zeEventCreate 2, 0), (.zeKernelSetGroupSize 7 0 0 0, 0),
           (.zeCommandListAppendLaunchKernel 7 ⟨0, 0, 0⟩ 0 0 [], 0)]).with_counters 1 0) :=
  rfl

/-- C12: the constructor throws its configuration error exactly when the resolved
strategy is `none` and the queue is out-of-order (every other failure is a
driver error), and a stream it builds with strategy `none` has an in-order
queue. -/
theorem ctor_configuration_error (config : engine_configuration) (driver : ze_driver)
    (uninit : ze_event_handle_t) :
    (ze_stream.ctor config driver uninit = .error .runtime_error ↔
      resolve_sync_method config = sync_methods.none ∧
        config.queue_type = queue_types.out_of_order) ∧
    (∀ s, ze_stream.ctor config driver uninit = .ok s →
      s.sync_method = sync_methods.none → config.queue_type = queue_types.in_order) := by
  constructor
  · unfold ze_stream.ctor
    simp only [api_eq]
    by_cases hc : resolve_sync_method config = sync_methods.none ∧
        config.queue_type = queue_types.out_of_order
    · simp [hc]
    · simp only [hc, if_false, iff_false]
      split_ifs <;> simp
  · intro s hs hn
    rw [(ctor_ok hs).1] at hn
    obtain ⟨q, p⟩ := config
    cases q
    · rfl
    · cases p <;> simp [resolve_sync_method] at hn

/-- When the dependency list is empty, or the strategy is `none`, or the
strategy is `events` and no dependency is a native event with a non-null
handle, `enqueue_marker` appends no command and leaves the queue counter and
the last barrier mark unchanged, whatever its outcome.  In the first two cases
it is `create_user_event(true)` itself; in the third, once the driver has
accepted the pool and event created at its start, it is the
`create_user_event(true)` called from there. -/
theorem enqueue_marker_degenerate (s : ze_stream) (deps : List event_ptr) (is_output : Bool)
    (hcase : deps = [] ∨ s.sync_method = sync_methods.none ∨
      (s.sync_method = sync_methods.events ∧ spec_wait_list deps = [])) :
    (s.enqueue_marker deps is_output).2.command_buffer = s.command_buffer ∧
    (s.enqueue_marker deps is_output).2._queue_counter = s._queue_counter ∧
    (s.enqueue_marker deps is_output).2._last_barrier = s._last_barrier ∧
    (deps = [] ∨ s.sync_method = sync_methods.none →
      s.enqueue_marker deps is_output = s.create_user_event true) ∧
    (s.sync_method = sync_methods.events → spec_wait_list deps = [] → deps ≠ [] →
      s.accepts 2 →
      s.enqueue_marker deps is_output =
        (s.logged [(.zeEventPoolCreate, 0), (.zeEventCreate (s.out_at 0), 0)]
          ).create_user_event true) := by
  have hcu : ∀ s1 : ze_stream, (s1.create_user_event true).2.command_buffer = s1.command_buffer ∧
      (s1.create_user_event true).2._queue_counter = s1._queue_counter ∧
      (s1.create_user_event true).2._last_barrier = s1._last_barrier := by
    intro s1
    rw [create_user_event_eq]
    split_ifs <;>
      simp [command_buffer_logged, commands_of, ze_call.is_command]
  have h12 : deps = [] ∨ s.sync_method = sync_methods.none →
      s.enqueue_marker deps is_output = s.create_user_event true := by
    intro h
    rw [enqueue_marker_eq]
    by_cases hd : deps.isEmpty = true
    · simp [hd]
    · have hne : deps ≠ [] := by
        intro h'
        rw [h'] at hd
        exact hd rfl
      have hm : s.sync_method = sync_methods.none := by
        rcases h with h | h
        · exact absurd h hne
        · exact h
      rw [create_user_event_eq]
      simp only [hd, hm]
      split_ifs <;> simp
  have h3 : s.sync_method = sync_methods.events → spec_wait_list deps = [] → deps ≠ [] →
      s.status_at 0 = 0 → s.status_at 1 = 0 →
      s.enqueue_marker deps is_output =
        (s.logged [(.zeEventPoolCreate, 0), (.zeEventCreate (s.out_at 0), 0)]
          ).create_user_event true := by
    intro hm hw hne h0 h1
    have hd : ¬ deps.isEmpty = true := by
      intro h'
      exact hne (List.isEmpty_iff.1 h')
    rw [enqueue_marker_eq]
    simp [hd, hm, h0, h1, collect_dep_events_eq_spec, hw]
  refine ⟨?_, ?_, ?_, h12, fun hm hw hne ha => h3 hm hw hne (ha 0 (by omega)) (ha 1 (by omega))⟩
  all_goals
    by_cases h : deps = [] ∨ s.sync_method = sync_methods.none
    · rw [h12 h]
      first | exact (hcu s).1 | exact (hcu s).2.1 | exact (hcu s).2.2
    · have hne : deps ≠ [] := fun h' => h (Or.inl h')
      have hev : s.sync_method = sync_methods.events ∧ spec_wait_list deps = [] := by
        rcases hcase with h' | h' | h'
        · exact absurd h' hne
        · exact absurd (Or.inr h') h
        · exact h'
      by_cases h0 : s.status_at 0 = 0
      · by_cases h1 : s.status_at 1 = 0
        · rw [h3 hev.1 hev.2 hne h0 h1]
          have := hcu (s.logged [(.zeEventPoolCreate, 0), (.zeEventCreate (s.out_at 0), 0)])
          simp only [command_buffer_logged, logged_queue_counter, logged_last_barrier] at this
          first
            | (rw [this.1]; simp [commands_of, ze_call.is_command])
            | exact this.2.1
            | exact this.2.2
        · have hd : ¬ deps.isEmpty = true := fun h' => hne (List.isEmpty_iff.1 h')
          rw [enqueue_marker_eq]
          simp [hd, h0, h1, command_buffer_logged, commands_of, ze_call.is_command]
      · have hd : ¬ deps.isEmpty = true := fun h' => hne (List.isEmpty_iff.1 h')
        rw [enqueue_marker_eq]
        simp [hd, h0, command_buffer_logged, commands_of, ze_call.is_command]

theorem enqueue_marker_degenerate_witness :
    ((fresh_stream profiling_config).enqueue_marker [none, some (.other 0)] false).2.command_buffer
      = (fresh_stream profiling_config).command_buffer :=
  (enqueue_marker_degenerate (fresh_stream profiling_config) [none, some (.other 0)] false
    (Or.inr (Or.inr ⟨rfl, rfl⟩))).1

/-- C13 (the code at the failing input): `enqueue_marker` with an empty
dependency list on the fresh Barrier stream, with a dependency under strategy
`none`, and with a null-handle dependency under strategy `events` returns a
simple event with queue stamp 1, and the driver has only been asked to create
pools and events: no call signals the event, and the event is the one
`create_user_event(false)` returns except for the stamp, so nothing marks it as
signaled. -/
theorem marker_user_event_is_not_signaled :
    (fresh_stream scenario_config).enqueue_marker [] false =
      (.ok (.ze_event 2 3 1), (fresh_stream scenario_config).logged
        [(.zeEventPoolCreate, 0), (.zeEventCreate 2, 0)]) ∧
    (fresh_stream scenario_config).enqueue_marker [] false =
      (fresh_stream scenario_config).create_user_event true ∧
    (fresh_stream scenario_config).create_user_event false =
      (.ok (.ze_event 2 3 0), (fresh_stream scenario_config).logged
        [(.zeEventPoolCreate, 0), (.zeEventCreate 2, 0)]) ∧
    (fresh_stream ⟨.in_order, false⟩).enqueue_marker [some (.ze_event 1 5 1)] false =
      (.ok (.ze_event 2 3 1), (fresh_stream ⟨.in_order, false⟩).logged
        [(.zeEventPoolCreate, 0), (.zeEventCreate 2, 0)]) ∧
    (fresh_stream profiling_config).enqueue_marker [some (.ze_event 1 0 1)] false =
      (.ok (.ze_event 4 5 1), (fresh_stream profiling_config).logged
        [(.zeEventPoolCreate, 0), (.zeEventCreate 2, 0),
         (.zeEventPoolCreate, 0), (.zeEventCreate 4, 0)]) :=
  ⟨rfl, rfl, rfl, rfl, rfl⟩

/-- C14: on an Event-strategy stream, for a dependency list with at least one
native event with a non-null handle and a driver that accepts the three calls,
`enqueue_marker` completes, having created a pool and an event and appended
exactly one barrier whose signal event is that new event; the returned event
carries the same handle, the counter has taken exactly one increment, and the
stamp is the incremented counter: the counter before the call plus one, unless
that increment wraps `2 ^ 64`. -/
theorem enqueue_marker_events_barrier (s : ze_stream) (deps : List event_ptr) (is_output : Bool)
    (hm : s.sync_method = sync_methods.events)
    (hd : ∃ e, some e ∈ deps ∧ e.is_native = true ∧ e.get ≠ 0)
    (ha : s.accepts 3) :
    ∃ ev s', s.enqueue_marker deps is_output = (.ok ev, s') ∧
      s'.driver.calls = s.driver.calls ++
        [(.zeEventPoolCreate, 0), (.zeEventCreate (s.out_at 0), 0),
         (.zeCommandListAppendBarrier (s.out_at 1) 0 [], 0)] ∧
      s'.command_buffer = s.command_buffer ++ [.zeCommandListAppendBarrier ev.get 0 []] ∧
      ev = .ze_event (s.out_at 0) (s.out_at 1) (incr64 s._queue_counter) ∧
      s'._queue_counter = incr64 s._queue_counter ∧
      (s._queue_counter + 1 < 2 ^ 64 → incr64 s._queue_counter = s._queue_counter + 1) := by
  have hne : collect_dep_events deps ≠ [] := by
    rw [collect_dep_events_eq_spec]
    exact spec_wait_list_ne_nil hd
  have hde : ¬ deps.isEmpty = true := by
    intro h
    rw [List.isEmpty_iff.1 h] at hne
    exact hne rfl
  have heq := enqueue_marker_eq s deps is_output
  simp only [hde, hm, ha 0 (by omega), ha 1 (by omega), ha 2 (by omega), hne, if_true,
    if_false] at heq
  refine ⟨_, _, heq, rfl, ?_, rfl, rfl, fun hw => incr64_of_lt hw⟩
  simp [command_buffer_wc, command_buffer_logged, commands_of, ze_call.is_command, event.get]

theorem enqueue_marker_events_barrier_witness :
    ∃ ev s', (fresh_stream profiling_config).enqueue_marker [some (.ze_event 1 5 1)] false =
        (.ok ev, s') ∧
      s'.driver.calls = (fresh_stream profiling_config).driver.calls ++
        [(.zeEventPoolCreate, 0),
         (.zeEventCreate ((fresh_stream profiling_config).out_at 0), 0),
         (.zeCommandListAppendBarrier ((fresh_stream profiling_config).out_at 1) 0 [], 0)] ∧
      s'.command_buffer = (fresh_stream profiling_config).command_buffer ++
        [.zeCommandListAppendBarrier ev.get 0 []] ∧
      ev = .ze_event ((fresh_stream profiling_config).out_at 0)
        ((fresh_stream profiling_config).out_at 1)
        (incr64 (fresh_stream profiling_config)._queue_counter) ∧
      s'._queue_counter = incr64 (fresh_stream profiling_config)._queue_counter ∧
      ((fresh_stream profiling_config)._queue_counter + 1 < 2 ^ 64 →
        incr64 (fresh_stream profiling_config)._queue_counter =
          (fresh_stream profiling_config)._queue_counter + 1) :=
  enqueue_marker_events_barrier (fresh_stream profiling_config) [some (.ze_event 1 5 1)] false
    rfl ⟨.ze_event 1 5 1, List.mem_singleton.2 rfl, rfl, by decide⟩ (fun _ _ => rfl)

/-- C15 (amended): on a Barrier-strategy stream, a completed `enqueue_marker` with a
non-empty list of native dependencies has run `sync_events` and returns, in
both cases, the event made of the new pool, the stored barrier event handle
and the last barrier mark after the call: the mark of the barrier just issued
when a stamp exceeded the old mark (one barrier appended), and the unchanged
old mark, with nothing appended, when none did. -/
theorem enqueue_marker_barriers_returns_mark (s s' : ze_stream) (deps : List event_ptr)
    (is_output : Bool) (ev : event)
    (hm : s.sync_method = sync_methods.barriers) (hne : deps ≠ [])
    (hn : all_native deps = true)
    (h : s.enqueue_marker deps is_output = (.ok ev, s')) :
    ev = .ze_event (s.out_at 0) s._last_barrier_ev s'._last_barrier ∧
    ((∃ e, some e ∈ deps ∧ e.get_queue_stamp > s._last_barrier) →
      s'._last_barrier = incr64 s._queue_counter ∧
      ∃ b, b.is_barrier = true ∧ s'.command_buffer = s.command_buffer ++ [b]) ∧
    ((¬ ∃ e, some e ∈ deps ∧ e.get_queue_stamp > s._last_barrier) →
      s'._last_barrier = s._last_barrier ∧ s'.command_buffer = s.command_buffer) := by
  have hde : ¬ deps.isEmpty = true := fun h' => hne (List.isEmpty_iff.1 h')
  rw [enqueue_marker_eq] at h
  simp only [hde, hm, if_false] at h
  by_cases h0 : s.status_at 0 = 0
  swap
  · simp [h0] at h
  by_cases h1 : s.status_at 1 = 0
  swap
  · simp [h0, h1] at h
  simp only [h0, h1, if_true, sync_events_native _ _ _ hn, logged_last_barrier,
    logged_status_at, logged_queue_counter] at h
  rw [← exceeds_mark_iff _ _ hn]
  by_cases hx : exceeds_mark s._last_barrier deps = true
  · by_cases h2 : s.status_at 2 = 0
    · simp only [hx, if_true, List.length_cons, List.length_nil, Nat.zero_add, Nat.add_zero,
        h2] at h
      obtain ⟨ha, hb⟩ := Prod.mk.inj h
      have hev := (Except.ok.inj ha).symm
      subst hb
      refine ⟨hev, fun _ => ⟨rfl, sync_barrier_call s is_output, rfl, ?_⟩, fun hc => absurd hx hc⟩
      simp [command_buffer_wc, command_buffer_logged, commands_of, ze_call.is_command,
        sync_barrier_call]
    · simp [hx, h2] at h
  · simp only [hx, if_false] at h
    obtain ⟨ha, hb⟩ := Prod.mk.inj h
    have hev := (Except.ok.inj ha).symm
    subst hb
    refine ⟨hev, fun hc => absurd hc hx, fun _ => ⟨rfl, ?_⟩⟩
    simp [command_buffer_logged, commands_of, ze_call.is_command]

/-- C15 (counterexample): on the scenario stream after K1 and one marker (mark 2),
a second `enqueue_marker` on the event of K1 needs no barrier and appends
none; it returns the event with the null stored barrier handle and stamp 2,
where `create_user_event(true)` returns a new handle with stamp 1. -/
theorem marker_without_barrier_is_not_user_event :
    marker_stream._last_barrier = 2 ∧
    (marker_stream.enqueue_marker [some (.ze_event 2 3 1)] false).1 = .ok (.ze_event 9 0 2) ∧
    (marker_stream.enqueue_marker [some (.ze_event 2 3 1)] false).2.command_buffer =
      marker_stream.command_buffer ∧
    (marker_stream.create_user_event true).1 = .ok (.ze_event 9 10 1) :=
  ⟨rfl, rfl, rfl, rfl⟩

theorem enqueue_marker_barriers_returns_mark_witness :
    (event.ze_event 9 0 2) = .ze_event (marker_stream.out_at 0) marker_stream._last_barrier_ev
      (marker_stream.enqueue_marker [some (.ze_event 2 3 1)] false).2._last_barrier :=
  (enqueue_marker_barriers_returns_mark marker_stream
    (marker_stream.enqueue_marker [some (.ze_event 2 3 1)] false).2 [some (.ze_event 2 3 1)]
    false (.ze_event 9 0 2) rfl (by simp) rfl rfl).1

/-- C16: for every input list that yields at least one simple event after
flattening, `group_events` returns a composite whose queue stamp is the maximum
of the stamps of those simple events (it bounds all of them and is the stamp of
one of them), and `get()` of the composite is the handle of a simple event
whose stamp is that maximum. -/
theorem group_events_max_stamp (s : ze_stream) (uninit : ze_event_handle_t)
    (deps : List event_ptr) (hleaf : spec_leaves deps ≠ []) :
    ∃ g, s.group_events uninit deps = (.ok g, s) ∧
      (∀ leaf, leaf ∈ spec_leaves deps → leaf.2 ≤ g.get_queue_stamp) ∧
      (∃ leaf, leaf ∈ spec_leaves deps ∧ leaf.2 = g.get_queue_stamp ∧ leaf.1 = g.get) := by
  have h0 : leaf_invariant
      { _queue_stamp := 0, _last_ze_event := uninit, _events := [] } [] := by
    unfold leaf_invariant
    exact ⟨fun _ h => (nomatch h), fun _ => rfl, fun h => absurd rfl h⟩
  have h := foldl_visit_invariant h0 (spec_flatten deps)
  rw [List.nil_append, ← process_events_eq] at h
  exact ⟨_, rfl, h.1, h.2.2 hleaf⟩

theorem group_events_max_stamp_witness :
    spec_leaves grouped_example = [(11, 3), (12, 9), (13, 6)] ∧
    ∃ g, (fresh_stream scenario_config).group_events 0 grouped_example =
        (.ok g, fresh_stream scenario_config) ∧
      (∀ leaf, leaf ∈ spec_leaves grouped_example → leaf.2 ≤ g.get_queue_stamp) ∧
      (∃ leaf, leaf ∈ spec_leaves grouped_example ∧ leaf.2 = g.get_queue_stamp ∧
        leaf.1 = g.get) :=
  ⟨rfl, group_events_max_stamp (fresh_stream scenario_config) 0 grouped_example (by decide)⟩

/-- C17: for every list of inputs that are simple events or composites built by the
constructor from such inputs, to any depth, the `_events` list of the composite
the constructor builds from them is the in-order list of the simple events of
the inputs, and none of its members is a composite. -/
theorem composite_stores_only_leaves (uninit : ze_event_handle_t) (inputs : List event_tree) :
    (ze_events.ctor uninit (event_tree.build_list inputs))._events =
      (event_tree.leaves_list inputs).map some ∧
    ∀ p, p ∈ (ze_events.ctor uninit (event_tree.build_list inputs))._events →
      ∃ pool h q, p = some (.ze_event pool h q) := by
  have h := ctor_events uninit (event_tree.build_list inputs)
  rw [build_list_flatten] at h
  refine ⟨h, ?_⟩
  intro p hp
  rw [h, List.mem_map] at hp
  obtain ⟨e, he, rfl⟩ := hp
  obtain ⟨pool, hd, q, rfl⟩ := leaves_list_simple inputs e he
  exact ⟨pool, hd, q, rfl⟩

/-- Every driver call `sync_events` issues is a barrier append with a null signal
event and a wait count of zero, whatever `is_output` is. -/
theorem sync_events_barrier_signal_is_null (s : ze_stream) (deps : List event_ptr)
    (is_output : Bool) (c : ze_call × ze_result_t)
    (hc : c ∈ (s.sync_events deps is_output).2.driver.calls) (hnew : c ∉ s.driver.calls) :
    ∃ waits, c.1 = .zeCommandListAppendBarrier 0 0 waits := by
  rw [sync_events_eq] at hc
  split at hc
  · exact absurd hc hnew
  · split_ifs at hc
    · simp only [wc_driver, logged_calls, List.mem_append, List.mem_singleton] at hc
      rcases hc with hc | hc
      · exact absurd hc hnew
      · exact ⟨_, by rw [hc]; rfl⟩
    · simp only [logged_calls, List.mem_append, List.mem_singleton] at hc
      rcases hc with hc | hc
      · exact absurd hc hnew
      · exact ⟨_, by rw [hc]; rfl⟩
  · exact absurd hc hnew

/-- C18 (the code at the failing input): on the constructed Barrier stream whose
`_last_barrier_ev` holds 42, `sync_events` with a dependency of stamp 1 and
`is_output = true` appends a barrier whose signal event is null; the stored
handle is passed as wait array with a wait count of zero, and
`_last_barrier_ev` still holds 42 afterwards. -/
theorem sync_events_output_barrier_has_no_signal :
    ze_stream.ctor scenario_config accepting_driver 42 = .ok stale_barrier_ev_stream ∧
    stale_barrier_ev_stream.sync_events [some (.ze_event 2 3 1)] true =
      (.ok (), (stale_barrier_ev_stream.logged
        [(.zeCommandListAppendBarrier 0 0 [42], 0)]).with_counters 1 1) ∧
    (stale_barrier_ev_stream.sync_events [some (.ze_event 2 3 1)] true).2._last_barrier_ev = 42 :=
  ⟨rfl, rfl, rfl⟩

/-- C19 (amended): on a Barrier-strategy stream a completed `enqueue_kernel` with
native dependencies has, for either value of `is_output`, requested a pool and
an event from the driver and advanced the counter; it returns that event,
stamped with the counter after the call.  Its launch, the last driver call,
has an empty wait-list and carries the handle of that event as signal only when
`is_output` holds, and no signal event otherwise. -/
theorem enqueue_kernel_barriers_creates_event (s s' : ze_stream) (kern : ze_kernel_handle_t)
    (args_desc : kernel_arguments_desc) (deps : List event_ptr) (is_output : Bool) (ev : event)
    (hm : s.sync_method = sync_methods.barriers) (hn : all_native deps = true)
    (h : s.enqueue_kernel kern args_desc deps is_output = (.ok ev, s'))
    (hw : s._queue_counter + 2 < 2 ^ 64) :
    ∃ before pool handle, ev = .ze_event pool handle s'._queue_counter ∧
      s._queue_counter < s'._queue_counter ∧
      s'.driver.calls = s.driver.calls ++ before ++
        [(.zeEventPoolCreate, 0), (.zeEventCreate pool, 0), (group_size_call kern args_desc, 0),
         (.zeCommandListAppendLaunchKernel kern (to_group_count args_desc.workGroups.global)
            (if is_output then handle else 0) 0 [], 0)] := by
  have h1 : incr64 s._queue_counter = s._queue_counter + 1 := incr64_of_lt (by omega)
  have h2 : incr64 (s._queue_counter + 1) = s._queue_counter + 2 := incr64_of_lt (by omega)
  rcases enqueue_kernel_barriers_ok hm hn h with ⟨_, _, rfl, rfl⟩ | ⟨_, _, rfl, rfl⟩
  · refine ⟨[(sync_barrier_call s is_output, 0)], s.out_at 1, s.out_at 2, rfl, ?_, ?_⟩
    · simp only [wc_queue_counter, h1, h2]
      omega
    · simp [launch_call]
  · refine ⟨[], s.out_at 0, s.out_at 1, rfl, ?_, ?_⟩
    · simp only [wc_queue_counter, h1]
      omega
    · simp [launch_call]

theorem enqueue_kernel_barriers_creates_event_witness :
    ∃ before pool handle, (event.ze_event 2 3 1) = .ze_event pool handle scenario_K1.2._queue_counter ∧
      (fresh_stream scenario_config)._queue_counter < scenario_K1.2._queue_counter ∧
      scenario_K1.2.driver.calls = (fresh_stream scenario_config).driver.calls ++ before ++
        [(.zeEventPoolCreate, 0), (.zeEventCreate pool, 0),
         (group_size_call 7 ⟨⟨[8], [2]⟩⟩, 0),
         (.zeCommandListAppendLaunchKernel 7 (to_group_count [8])
            (if false then handle else 0) 0 [], 0)] :=
  enqueue_kernel_barriers_creates_event (fresh_stream scenario_config) scenario_K1.2 7
    ⟨⟨[8], [2]⟩⟩ [] false (.ze_event 2 3 1) rfl rfl rfl (by decide)

/-- C19 (counterexample): kernel K1 of the scenario, enqueued with `is_output =
false` on the fresh Barrier stream, requests an event pool and an event and
moves the counter from 0 to 1. -/
theorem kernel_without_output_creates_event :
    scenario_K1 = (.ok (.ze_event 2 3 1), ((fresh_stream scenario_config).logged
      [(.zeEventPoolCreate, 0), (.zeEventCreate 2, 0), (.zeKernelSetGroupSize 7 2 1 1, 0),
       (.zeCommandListAppendLaunchKernel 7 ⟨8, 1, 1⟩ 0 0 [], 0)]).with_counters 1 0) ∧
    (fresh_stream scenario_config)._queue_counter = 0 :=
  ⟨rfl, rfl⟩

/-- C20 (the code at the failing input): on the fresh Barrier stream, `enqueue_kernel`
and `enqueue_marker` with a null dependency or with a dependency of a
non-native class call `get_queue_stamp` through the null result of the cast,
where `enqueue_kernel` without that entry completes. -/
theorem non_native_dependency_dereferenced :
    ((fresh_stream scenario_config).enqueue_kernel 7 ⟨⟨[8], [2]⟩⟩ [none] false).1 =
      .error .null_dereference ∧
    ((fresh_stream scenario_config).enqueue_kernel 7 ⟨⟨[8], [2]⟩⟩ [some (.other 0)] false).1 =
      .error .null_dereference ∧
    ((fresh_stream scenario_config).enqueue_marker [none] false).1 = .error .null_dereference ∧
    ((fresh_stream scenario_config).enqueue_marker [some (.other 0)] false).1 =
      .error .null_dereference ∧
    ((fresh_stream scenario_config).enqueue_kernel 7 ⟨⟨[8], [2]⟩⟩ [] false).1 =
      .ok (.ze_event 2 3 1) :=
  ⟨rfl, rfl, rfl, rfl, rfl⟩

/-! ## Lemmas for nesting of composite events -/

theorem spec_flatten_append (A B : List event_ptr) :
    spec_flatten (A ++ B) = spec_flatten A ++ spec_flatten B := by
  induction A with
  | nil => rfl
  | cons a A ih => simp [spec_flatten, ih]

theorem spec_flatten_groups (uA uB : ze_event_handle_t) (A B : List event_ptr) :
    spec_flatten [some (ze_events.ctor uA A), some (ze_events.ctor uB B)] =
      spec_flatten (A ++ B) := by
  have hA := ctor_events uA A
  have hB := ctor_events uB B
  simp only [ze_events.ctor, event._events] at hA hB
  simp only [spec_flatten, spec_members, ze_events.ctor, hA, hB, List.append_nil,
    spec_flatten_append]

theorem ctor_eq_fold (u : ze_event_handle_t) (ev : List event_ptr) :
    ze_events.ctor u ev =
      .ze_events ((spec_flatten ev).foldl ze_events.visit ⟨0, u, []⟩)._queue_stamp
        ((spec_flatten ev).foldl ze_events.visit ⟨0, u, []⟩)._last_ze_event
        ((spec_flatten ev).foldl ze_events.visit ⟨0, u, []⟩)._events := by
  simp only [ze_events.ctor, process_events_eq]

theorem foldl_visit_forgets (ps : List event_ptr) (m m' : ze_events_members)
    (hs : m._queue_stamp = 0) (hs' : m'._queue_stamp = 0) (he : m._events = m'._events)
    (hl : ps.filterMap as_ze_event ≠ []) :
    ps.foldl ze_events.visit m = ps.foldl ze_events.visit m' := by
  induction ps generalizing m m' with
  | nil => exact absurd rfl hl
  | cons p ps ih =>
    simp only [List.foldl_cons]
    cases hp : as_ze_event p with
    | none =>
      have hl' : ps.filterMap as_ze_event ≠ [] := by
        simpa [List.filterMap_cons, hp] using hl
      apply ih _ _ _ _ _ hl'
      · simp [ze_events.visit, hp, hs]
      · simp [ze_events.visit, hp, hs']
      · simp [ze_events.visit, hp, he]
    | some leaf =>
      have : ze_events.visit m p = ze_events.visit m' p := by
        simp [ze_events.visit, hp, hs, hs', he]
      rw [this]

theorem stamp_events_independent (ps : List event_ptr) (m m' : ze_events_members)
    (hs : m._queue_stamp = m'._queue_stamp) (he : m._events = m'._events) :
    (ps.foldl ze_events.visit m)._queue_stamp = (ps.foldl ze_events.visit m')._queue_stamp ∧
    (ps.foldl ze_events.visit m)._events = (ps.foldl ze_events.visit m')._events := by
  induction ps generalizing m m' with
  | nil => exact ⟨hs, he⟩
  | cons p ps ih =>
    simp only [List.foldl_cons]
    apply ih
    · unfold ze_events.visit
      cases as_ze_event p with
      | none => exact hs
      | some leaf =>
        simp only [hs]
        split_ifs <;> rfl
    · simp [visit_events, he]

theorem sync_events_ok_cases {s s' : ze_stream} {deps : List event_ptr} {is_output : Bool}
    (h : s.sync_events deps is_output = (.ok (), s')) :
    s' = s ∨ s' = (s.logged [(sync_barrier_call s is_output, 0)]).with_counters
      (incr64 s._queue_counter) (incr64 s._queue_counter) := by
  rw [sync_events_eq] at h
  split at h
  · cases (Prod.mk.inj h).1
  · split_ifs at h
    · exact Or.inr (Prod.mk.inj h).2.symm
    · cases (Prod.mk.inj h).1
  · exact Or.inl (Prod.mk.inj h).2.symm

/-! ## Lemmas: every function of the stream keeps the invariant -/

theorem api_logged (s : ze_stream) (c : ze_call) : ∃ l, (s.api c).2 = s.logged l := by
  rw [api_eq]
  split_ifs <;> exact ⟨_, rfl⟩

theorem wait_for_events_loop_logged (events : List event_ptr) :
    ∀ s : ze_stream, ∃ l, (s.wait_for_events_loop events).2 = s.logged l := by
  induction events with
  | nil => intro s; exact ⟨[], (logged_nil s).symm⟩
  | cons ev rest ih =>
    intro s
    unfold ze_stream.wait_for_events_loop
    cases as_ze_base_event ev with
    | none => exact ih s
    | some b =>
      simp only [api_eq]
      split_ifs
      · obtain ⟨l, hl⟩ := ih (s.logged [(ze_call.zeEventHostSynchronize b.get, 0)])
        exact ⟨_, by simp only [hl, logged_logged]; rfl⟩
      · exact ⟨_, rfl⟩

theorem wait_for_events_advances (s : ze_stream) (events : List event_ptr) :
    s.advances (s.wait_for_events events).2 := by
  unfold ze_stream.wait_for_events
  split_ifs
  · exact adv_self s
  · obtain ⟨l, hl⟩ := wait_for_events_loop_logged events s
    rw [hl]
    exact adv_logged s l

theorem bind_usm_logged (s : ze_stream) (kernel : ze_kernel_handle_t) (i : Nat) (mem : memory) :
    ∃ l, (s.bind_usm kernel i mem).2 = s.logged l := by
  unfold ze_stream.bind_usm
  cases mem.gpu_usm with
  | none => exact ⟨[], (logged_nil s).symm⟩
  | some ptr =>
    simp only [api_eq]
    split_ifs <;> exact ⟨_, rfl⟩

theorem bind_indexed_logged (s : ze_stream) (kernel : ze_kernel_handle_t) (i : Nat)
    (buffers : List memory_ptr) (index : Nat) :
    ∃ l, (s.bind_indexed kernel i buffers index).2 = s.logged l := by
  unfold ze_stream.bind_indexed
  split_ifs
  · cases buffers.getD index none with
    | none => exact ⟨[], (logged_nil s).symm⟩
    | some m =>
      simp only
      split_ifs
      · exact bind_usm_logged s kernel i m
      · exact ⟨[], (logged_nil s).symm⟩
  · exact ⟨[], (logged_nil s).symm⟩

theorem bind_single_logged (s : ze_stream) (kernel : ze_kernel_handle_t) (i : Nat)
    (mem : memory_ptr) : ∃ l, (s.bind_single kernel i mem).2 = s.logged l := by
  unfold ze_stream.bind_single
  cases mem with
  | none => exact ⟨[], (logged_nil s).symm⟩
  | some m => exact bind_usm_logged s kernel i m

theorem set_argument_logged (s : ze_stream) (kernel : ze_kernel_handle_t) (i : Nat)
    (arg : argument_desc) (data : kernel_arguments_data) :
    ∃ l, (s.set_argument kernel i arg data).2 = s.logged l := by
  unfold ze_stream.set_argument
  cases arg.t with
  | INPUT => exact bind_indexed_logged _ _ _ _ _
  | INPUT_OF_FUSED_PRIMITIVE => exact bind_indexed_logged _ _ _ _ _
  | INTERNAL_BUFFER => exact bind_indexed_logged _ _ _ _ _
  | OUTPUT => exact bind_single_logged _ _ _ _
  | WEIGHTS => exact bind_single_logged _ _ _ _
  | BIAS => exact bind_single_logged _ _ _ _
  | WEIGHTS_ZERO_POINTS => exact bind_single_logged _ _ _ _
  | other _ => exact ⟨[], (logged_nil s).symm⟩

theorem set_arguments_from_logged (kernel : ze_kernel_handle_t) (data : kernel_arguments_data)
    (args : List argument_desc) :
    ∀ (i : Nat) (s : ze_stream), ∃ l, (s.set_arguments_from kernel data i args).2 = s.logged l := by
  induction args with
  | nil => intro i s; exact ⟨[], (logged_nil s).symm⟩
  | cons arg rest ih =>
    intro i s
    unfold ze_stream.set_arguments_from
    obtain ⟨l, hl⟩ := set_argument_logged s kernel i arg data
    cases hr : s.set_argument kernel i arg data with
    | mk r s1 =>
      rw [hr] at hl
      simp only at hl
      subst hl
      cases r with
      | error e => exact ⟨l, rfl⟩
      | ok u =>
        obtain ⟨l2, hl2⟩ := ih (i + 1) (s.logged l)
        exact ⟨l ++ l2, by simp only [hl2, logged_logged]⟩

theorem set_arguments_advances (s : ze_stream) (kernel : ze_kernel_handle_t)
    (args : List argument_desc) (data : kernel_arguments_data) :
    s.advances (s.set_arguments kernel args data).2 := by
  unfold ze_stream.set_arguments
  obtain ⟨l, hl⟩ := set_arguments_from_logged kernel data (args.take (args.length % 2 ^ 32)) 0 s
  rw [hl]
  exact adv_logged s l

theorem create_base_event_advances (s : ze_stream) : s.advances s.create_base_event.2 := by
  rw [create_base_event_eq]
  split_ifs <;> first | exact adv_logged _ _ | exact adv_event _ _

theorem after_advances (s : ze_stream) (c : stream_call) : s.advances (s.after c) := by
  cases c with
  | op o => exact step_advances s o
  | set_arguments kernel args data => exact set_arguments_advances s kernel args data
  | wait_for_events events => exact wait_for_events_advances s events
  | create_base_event => exact create_base_event_advances s
  | sync_events deps is_output => exact sync_events_advances s deps is_output

theorem run_calls_bounds (s : ze_stream) (cs : List stream_call)
    (hw : s._queue_counter + 2 * cs.length < 2 ^ 64)
    (hi : s._last_barrier ≤ s._queue_counter) :
    (s.run_calls cs)._queue_counter ≤ s._queue_counter + 2 * cs.length ∧
    (s.run_calls cs)._last_barrier ≤ (s.run_calls cs)._queue_counter := by
  induction cs generalizing s with
  | nil => simp [ze_stream.run_calls, hi]
  | cons c cs ih =>
    simp only [List.length_cons] at hw
    have hb := advances_bounds (after_advances s c) (by omega) hi
    have := ih (s.after c) (by omega) hb.2.2.2
    simp only [ze_stream.run_calls, List.length_cons]
    omega

/-! ## The claims, concluded: the stream -/

/-- The cases INPUT, INPUT_OF_FUSED_PRIMITIVE and INTERNAL_BUFFER skip, without a
driver call and without error, an index out of range, a null buffer and a
buffer that is not of a USM type. -/
theorem bind_indexed_skips (s : ze_stream) (kernel : ze_kernel_handle_t) (i : Nat)
    (buffers : List memory_ptr) (index : Nat)
    (h : ∀ m, buffers.getD index none = some m → m.is_usm = false) :
    s.bind_indexed kernel i buffers index = (.ok (), s) := by
  unfold ze_stream.bind_indexed
  split_ifs with hr
  · cases hm : buffers.getD index none with
    | none => rfl
    | some m => simp [h m hm]
  · rfl

/-- The cases OUTPUT, WEIGHTS, BIAS and WEIGHTS_ZERO_POINTS dereference the failed
cast of a non-null buffer whose class is not `ze::gpu_usm`, whatever its
allocation type. -/
theorem bind_single_not_gpu_usm (s : ze_stream) (kernel : ze_kernel_handle_t) (i : Nat)
    (m : memory) (h : m.gpu_usm = none) :
    s.bind_single kernel i (some m) = (.error .null_dereference, s) := by
  simp [ze_stream.bind_single, ze_stream.bind_usm, h]

/-- C21 (the code at the failing input): with a non-null buffer that is not of a USM
type as output, `set_arguments` on the descriptor list `[OUTPUT 0]` does not
skip the descriptor: it dereferences the failed cast to `ze::gpu_usm`; the same
holds for WEIGHTS.  The same buffer as INPUT 0 is skipped silently, a USM
buffer as INPUT 1 is bound at its position, and null buffers are skipped. -/
theorem set_arguments_output_not_usm :
    (fresh_stream scenario_config).set_arguments 7 [⟨.OUTPUT, 0⟩] binding_data =
      (.error .null_dereference, fresh_stream scenario_config) ∧
    (fresh_stream scenario_config).set_arguments 7 [⟨.WEIGHTS, 0⟩] binding_data =
      (.error .null_dereference, fresh_stream scenario_config) ∧
    (fresh_stream scenario_config).set_arguments 7
        [⟨.INPUT, 0⟩, ⟨.INPUT, 1⟩, ⟨.INPUT, 2⟩, ⟨.INPUT, 3⟩, ⟨.BIAS, 0⟩] binding_data =
      (.ok (), (fresh_stream scenario_config).logged
        [(.zeKernelSetArgumentValue 7 1 100, 0)]) :=
  ⟨rfl, rfl, rfl⟩

/-- With a driver that accepts every call, `wait_for_events` waits once, in list
order, on every pointer that casts to `ze_base_event`, with the handle its
`get()` returns, null or not. -/
theorem wait_for_events_loop_calls (s : ze_stream) (events : List event_ptr)
    (ha : ∀ i, s.status_at i = 0) :
    s.wait_for_events_loop events = (.ok (), s.logged
      ((events.filterMap as_ze_base_event).map
        (fun e => (ze_call.zeEventHostSynchronize e.get, 0)))) := by
  induction events generalizing s with
  | nil => simp [ze_stream.wait_for_events_loop, logged_nil]
  | cons ev rest ih =>
    unfold ze_stream.wait_for_events_loop
    cases hb : as_ze_base_event ev with
    | none => simp [List.filterMap_cons, hb, ih s ha]
    | some b =>
      simp only [api_eq, ha 0, if_true]
      rw [ih _ (by intro i; simp [ha])]
      simp [List.filterMap_cons, hb]

/-- C22 (the code at the failing input): on the fresh stream, `wait_for_events` on a
native event with a null handle, an event of another class, a null pointer and
a native event with handle 5 issues two waits, the first of them on the null
handle. -/
theorem wait_for_events_waits_on_null_handle :
    (fresh_stream scenario_config).wait_for_events
        [some (.ze_event 1 0 1), some (.other 0), none, some (.ze_event 1 5 1)] =
      (.ok (), (fresh_stream scenario_config).logged
        [(.zeEventHostSynchronize 0, 0), (.zeEventHostSynchronize 5, 0)]) ∧
    spec_wait_list [some (.ze_event 1 0 1), some (.other 0), none, some (.ze_event 1 5 1)] =
      [5] :=
  ⟨rfl, rfl⟩

/-- C23: for every stream, whatever its strategy, `enqueue_barrier` issues exactly
one driver call, a barrier append with no signal event and an empty wait-list,
and leaves the queue counter, the last barrier mark, the stored barrier event
and the strategy unchanged; when the driver accepts the call it completes and
the command buffer has grown by exactly that barrier. -/
theorem enqueue_barrier_frame (s : ze_stream) :
    s.enqueue_barrier.2.driver.calls =
      s.driver.calls ++ [(.zeCommandListAppendBarrier 0 0 [], s.status_at 0)] ∧
    s.enqueue_barrier.2._queue_counter = s._queue_counter ∧
    s.enqueue_barrier.2._last_barrier = s._last_barrier ∧
    s.enqueue_barrier.2._last_barrier_ev = s._last_barrier_ev ∧
    s.enqueue_barrier.2.sync_method = s.sync_method ∧
    (s.status_at 0 = 0 → s.enqueue_barrier.1 = .ok () ∧
      s.enqueue_barrier.2.command_buffer =
        s.command_buffer ++ [.zeCommandListAppendBarrier 0 0 []]) := by
  rw [enqueue_barrier_eq]
  by_cases h0 : s.status_at 0 = 0
  · simp [h0, command_buffer_logged, commands_of, ze_call.is_command]
  · simp [h0]

/-- C24 (the code at the failing input): on the fresh stream `create_user_event(true)`
and `create_user_event(false)` issue the same two driver calls, the creation of
a pool and of an event, and no signal; the events they return consist of pool,
handle and queue stamp only, and differ in the stamp alone, 1 against 0: the
flag has become the queue stamp. -/
theorem create_user_event_flag_is_stamp :
    (fresh_stream scenario_config).create_user_event true =
      (.ok (.ze_event 2 3 1), (fresh_stream scenario_config).logged
        [(.zeEventPoolCreate, 0), (.zeEventCreate 2, 0)]) ∧
    (fresh_stream scenario_config).create_user_event false =
      (.ok (.ze_event 2 3 0), (fresh_stream scenario_config).logged
        [(.zeEventPoolCreate, 0), (.zeEventCreate 2, 0)]) :=
  ⟨rfl, rfl⟩

/-- C25: whenever `sync_events` completes having appended a barrier to the command
buffer, the queue counter has taken exactly one increment and the last barrier
mark equals the counter after the call: the counter before the call plus one,
unless that increment wraps `2 ^ 64`. -/
theorem sync_events_barrier_advances (s s' : ze_stream) (deps : List event_ptr)
    (is_output : Bool)
    (h : s.sync_events deps is_output = (.ok (), s'))
    (hb : ∃ b, b.is_barrier = true ∧ s'.command_buffer = s.command_buffer ++ [b]) :
    s'._queue_counter = incr64 s._queue_counter ∧
    s'._last_barrier = s'._queue_counter ∧
    (s._queue_counter + 1 < 2 ^ 64 → s'._queue_counter = s._queue_counter + 1) := by
  rcases sync_events_ok_cases h with rfl | rfl
  · obtain ⟨b, _, hb⟩ := hb
    have := congrArg List.length hb
    simp at this
  · exact ⟨rfl, rfl, fun hw => incr64_of_lt hw⟩

theorem sync_events_barrier_advances_witness :
    ((fresh_stream scenario_config).sync_events [some (.ze_event 1 2 1)] false).2._queue_counter
      = incr64 (fresh_stream scenario_config)._queue_counter ∧
    ((fresh_stream scenario_config).sync_events [some (.ze_event 1 2 1)] false).2._last_barrier
      = ((fresh_stream scenario_config).sync_events [some (.ze_event 1 2 1)]
          false).2._queue_counter ∧
    ((fresh_stream scenario_config)._queue_counter + 1 < 2 ^ 64 →
      ((fresh_stream scenario_config).sync_events [some (.ze_event 1 2 1)]
        false).2._queue_counter = (fresh_stream scenario_config)._queue_counter + 1) :=
  sync_events_barrier_advances (fresh_stream scenario_config) _ [some (.ze_event 1 2 1)] false
    rfl ⟨.zeCommandListAppendBarrier 0 0 [], rfl, rfl⟩

/-- C26: in every state reached from a stream built by the constructor (counter and
mark zero) by any sequence of calls of the functions of ze_stream.cpp
(`enqueue_kernel`, `enqueue_barrier`, `enqueue_marker`, `group_events`,
`create_user_event`, `set_arguments`, `wait_for_events`, `create_base_event`,
`sync_events`), whether they return or throw, under any strategy and with room
in the counter for every increment, the last barrier mark is at most the queue
counter. -/
theorem last_barrier_le_queue_counter (config : engine_configuration) (driver : ze_driver)
    (uninit : ze_event_handle_t) (s0 : ze_stream)
    (h0 : ze_stream.ctor config driver uninit = .ok s0)
    (calls : List stream_call) (hw : 2 * calls.length < 2 ^ 64) :
    (s0.run_calls calls)._last_barrier ≤ (s0.run_calls calls)._queue_counter := by
  obtain ⟨_, hc, hm, _⟩ := ctor_ok h0
  exact (run_calls_bounds s0 calls (by omega) (by omega)).2

theorem last_barrier_le_queue_counter_witness :
    ((fresh_stream scenario_config).run_calls scenario_calls)._last_barrier ≤
      ((fresh_stream scenario_config).run_calls scenario_calls)._queue_counter :=
  last_barrier_le_queue_counter scenario_config accepting_driver 0 _ rfl scenario_calls
    (by decide)

/-- For all event lists `A` and `B` the composite built from the group of `A`
and the group of `B` is the composite built from `A ++ B` when both start from
the same uninitialised `_last_ze_event`: same stored list, same queue stamp,
same representative handle.  Stored list and stamp do not
depend on what the uninitialised member `_last_ze_event` held, and neither does
the representative once the lists yield a simple event. -/
theorem group_events_nesting (u u' uA uB : ze_event_handle_t) (A B : List event_ptr) :
    ze_events.ctor u [some (ze_events.ctor uA A), some (ze_events.ctor uB B)] =
      ze_events.ctor u (A ++ B) ∧
    (ze_events.ctor u [some (ze_events.ctor uA A), some (ze_events.ctor uB B)])._events =
      (ze_events.ctor u' (A ++ B))._events ∧
    (ze_events.ctor u [some (ze_events.ctor uA A), some (ze_events.ctor uB B)]).get_queue_stamp =
      (ze_events.ctor u' (A ++ B)).get_queue_stamp ∧
    (spec_leaves (A ++ B) ≠ [] →
      (ze_events.ctor u [some (ze_events.ctor uA A), some (ze_events.ctor uB B)]).get =
        (ze_events.ctor u' (A ++ B)).get) := by
  have hf := spec_flatten_groups uA uB A B
  have h1 : ze_events.ctor u [some (ze_events.ctor uA A), some (ze_events.ctor uB B)] =
      ze_events.ctor u (A ++ B) := by
    rw [ctor_eq_fold, ctor_eq_fold u (A ++ B), hf]
  rw [h1]
  have hi := stamp_events_independent (spec_flatten (A ++ B)) ⟨0, u, []⟩ ⟨0, u', []⟩ rfl rfl
  refine ⟨rfl, ?_, ?_, ?_⟩
  · rw [ctor_eq_fold, ctor_eq_fold u']
    exact hi.2
  · rw [ctor_eq_fold, ctor_eq_fold u']
    exact hi.1
  · intro hl
    rw [ctor_eq_fold, ctor_eq_fold u',
      foldl_visit_forgets (spec_flatten (A ++ B)) ⟨0, u, []⟩ ⟨0, u', []⟩ rfl rfl rfl hl]

/-- C27 (the code at the failing input): with `A` and `B` empty no simple event
is visited, so `get()` of the composite built from the group of `A` and the
group of `B` returns what its uninitialised member `_last_ze_event` held, and
so does `get()` of the composite built from `A ++ B`: two independent values,
here 1 and 2, and the representative handles differ. -/
theorem empty_groups_representatives_differ (u u1 uA uB : ze_event_handle_t) :
    (ze_events.ctor u [some (ze_events.ctor uA []), some (ze_events.ctor uB [])]).get = u ∧
    (ze_events.ctor u1 ([] ++ [])).get = u1 ∧
    (ze_events.ctor 1 [some (ze_events.ctor 3 []), some (ze_events.ctor 4 [])]).get ≠
      (ze_events.ctor 2 ([] ++ [])).get := by
  refine ⟨rfl, rfl, ?_⟩
  decide

end ze
end cldnn

namespace kernel_selector

/-! ## Lemmas and claims: the concatenation kernel -/

theorem lws_loop_spec (g : Nat) : ∀ (fuel lws : Nat), 1 ≤ lws → lws ≤ fuel → lws < 2 ^ 64 →
    ∃ l, lws_loop g fuel lws = .ok l ∧ 1 ≤ l ∧ l ≤ lws ∧ l ∣ g ∧
      ∀ d, d ∣ g → d ≤ lws → d ≤ l := by
  intro fuel
  induction fuel with
  | zero => intro lws h1 h2; omega
  | succ fuel ih =>
    intro lws h1 h2 h3
    have hne : lws ≠ 0 := by omega
    by_cases hmod : g % lws = 0
    · refine ⟨lws, ?_, h1, le_refl _, Nat.dvd_of_mod_eq_zero hmod, fun d _ hd => hd⟩
      simp [lws_loop, hne, hmod]
    · have hlws : lws ≠ 1 := by
        intro h
        apply hmod
        rw [h]
        exact Nat.mod_one g
      have hdec : (lws + 2 ^ 64 - 1) % 2 ^ 64 = lws - 1 := by omega
      obtain ⟨l, hl, hl1, hl2, hl3, hl4⟩ := ih (lws - 1) (by omega) (by omega) (by omega)
      refine ⟨l, ?_, hl1, by omega, hl3, ?_⟩
      · rw [lws_loop, if_neg hne, if_pos hmod, hdec]
        exact hl
      · intro d hd hdl
        have hdne : d ≠ lws := by
          intro h
          apply hmod
          rw [← h]
          exact Nat.mod_eq_zero_of_dvd hd
        exact hl4 d hd (by omega)

theorem lws_loop_start (g fuel : Nat) (hfuel : 32 ≤ fuel) :
    ∃ l, lws_loop g fuel (min (max g 1) 32) = .ok l ∧ 1 ≤ l ∧ l ≤ 32 ∧ l ∣ g ∧
      (0 < g → ∀ d, d ∣ g → d ≤ 32 → d ≤ l) ∧ (g = 0 → l = 1) := by
  obtain ⟨l, hl, hl1, hl2, hl3, hl4⟩ :=
    lws_loop_spec g fuel (min (max g 1) 32) (by omega) (by omega) (by omega)
  refine ⟨l, hl, hl1, by omega, hl3, ?_, ?_⟩
  · intro hg d hd hd32
    have : d ≤ g := Nat.le_of_dvd hg hd
    exact hl4 d hd (by omega)
  · intro hg
    subst hg
    have : min (max 0 1) 32 = 1 := by decide
    omega

theorem SetDefault_eq (cx : ChannelTable) (fuel : Nat) (params : concatenation_params)
    (input : DataTensor) (rest : List DataTensor) (g g1 g2 l : Nat)
    (hin : params.inputs = input :: rest)
    (hg : extent_or_one input.dims (cx input.layout .Y) = .ok g)
    (hg1 : extent_or_one input.dims (cx input.layout .FEATURE) = .ok g1)
    (hg2 : extent_or_one input.dims (cx input.layout .BATCH) = .ok g2)
    (hl : lws_loop g fuel (min (max g 1) 32) = .ok l) :
    SetDefault cx fuel params = .ok ⟨[g, g1, g2], [l, 1, 1]⟩ := by
  simp only [SetDefault, hin, List.getD_cons_zero, List.getD_cons_succ, hg, hg1, hg2, hl]

/-- C28: in `SetDefault`, whatever the first global work size `g` is, the loop
that decrements `lws[0]` ends within 32 tests of its condition, and the result
has `1 ≤ lws[0] ≤ 32`, `lws[0]` divides `g`, no divisor of `g` up to 32 is
larger than `lws[0]` when `g > 0`, and `lws[0] = 1` when `g = 0`; `lws[1]` and
`lws[2]` are 1. -/
theorem SetDefault_local_size (cx : ChannelTable) (fuel : Nat) (params : concatenation_params)
    (input : DataTensor) (rest : List DataTensor) (g g1 g2 : Nat)
    (hin : params.inputs = input :: rest)
    (hg : extent_or_one input.dims (cx input.layout .Y) = .ok g)
    (hg1 : extent_or_one input.dims (cx input.layout .FEATURE) = .ok g1)
    (hg2 : extent_or_one input.dims (cx input.layout .BATCH) = .ok g2)
    (hfuel : 32 ≤ fuel) :
    ∃ l, SetDefault cx fuel params = .ok ⟨[g, g1, g2], [l, 1, 1]⟩ ∧
      1 ≤ l ∧ l ≤ 32 ∧ l ∣ g ∧
      (0 < g → ∀ d, d ∣ g → d ≤ 32 → d ≤ l) ∧ (g = 0 → l = 1) := by
  obtain ⟨l, hl, hprops⟩ := lws_loop_start g fuel hfuel
  exact ⟨l, SetDefault_eq cx fuel params input rest g g1 g2 l hin hg hg1 hg2 hl, hprops⟩

/-- A `bfyx` input with 35 rows: the loop runs from 32 down to 7. -/
theorem SetDefault_local_size_witness :
    SetDefault bfyx_table 32 example_params = .ok ⟨[35, 3, 1], [7, 1, 1]⟩ ∧
    ∃ l, SetDefault bfyx_table 32 example_params = .ok ⟨[35, 3, 1], [l, 1, 1]⟩ ∧
      1 ≤ l ∧ l ≤ 32 ∧ l ∣ 35 ∧
      (0 < 35 → ∀ d, d ∣ 35 → d ≤ 32 → d ≤ l) ∧ (35 = 0 → l = 1) :=
  ⟨rfl, SetDefault_local_size bfyx_table 32 example_params ⟨0, [4, 35, 3, 1]⟩
    [⟨0, [4, 35, 5, 1]⟩] 35 3 1 rfl rfl rfl rfl (by decide)⟩

end kernel_selector

namespace ov
namespace tools
namespace subgraph_dumper

/-! ## Lemmas and claim: equality of model meta information -/

theorem std_set_ext {a b : std_set} (h : a.elems = b.elems) : a = b := by
  cases a; cases b; cases h; rfl

theorem find_loop_iff (ref : List String) :
    ∀ xs : List String, ModelInfo.find_loop ref xs = true ↔ ∀ p, p ∈ xs → p ∈ ref := by
  intro xs
  induction xs with
  | nil => simp [ModelInfo.find_loop]
  | cons x xs ih =>
    simp only [ModelInfo.find_loop, List.mem_cons, forall_eq_or_imp]
    by_cases hx : x ∈ ref
    · have : ref.find? (fun p => p == x) ≠ none := by
        simp [List.find?_eq_none]
        exact hx
      simp [this, hx, ih]
    · have : ref.find? (fun p => p == x) = none := by
        simp [List.find?_eq_none]
        intro p hp h
        exact hx (h ▸ hp)
      simp [this, hx]

theorem elems_eq_of_subset {a b : std_set} (hl : a.elems.length = b.elems.length)
    (hs : ∀ p, p ∈ a.elems → p ∈ b.elems) : a.elems = b.elems := by
  have hna : a.elems.Nodup := a.sorted.imp (fun h => ne_of_lt h)
  have hsub : a.elems.Subperm b.elems := List.subperm_of_subset hna hs
  have hperm : a.elems.Perm b.elems := hsub.perm_of_length_le (le_of_eq hl.symm)
  exact List.eq_of_perm_of_sorted hperm a.sorted b.sorted

theorem operator_eq_iff_eq (a b : ModelInfo) : ModelInfo.operator_eq a b = true ↔ a = b := by
  constructor
  · intro h
    unfold ModelInfo.operator_eq at h
    split at h
    · exact absurd h (by simp)
    · rename_i hc
      simp only [not_or, not_not, std_set.size] at hc
      obtain ⟨h1, h2, h3, h4⟩ := hc
      have he := elems_eq_of_subset h4 ((find_loop_iff _ _).1 h)
      cases a
      cases b
      simp only at h1 h2 h3 he
      simp only [ModelInfo.mk.injEq]
      exact ⟨std_set_ext he, h2, h3, h1⟩
  · intro h
    subst h
    unfold ModelInfo.operator_eq
    simp only [ne_eq, not_true_eq_false, or_self, if_false]
    exact (find_loop_iff _ _).2 (fun p hp => hp)

/-- C30: `ModelInfo::operator==` returns true exactly when the two values have
the same `model_priority`, `this_op_cnt` and `total_op_cnt` and their
`model_paths` sets have the same members (equivalently, when the two values are
equal field by field); so it is reflexive, symmetric and transitive, although
the code compares only the sizes of the sets and looks the left paths up in the
right set. -/
theorem operator_eq_is_equality :
    (∀ a b : ModelInfo, ModelInfo.operator_eq a b = true ↔
      (a.model_priority = b.model_priority ∧ a.this_op_cnt = b.this_op_cnt ∧
        a.total_op_cnt = b.total_op_cnt ∧
        ∀ p, p ∈ a.model_paths.elems ↔ p ∈ b.model_paths.elems)) ∧
    (∀ a b : ModelInfo, ModelInfo.operator_eq a b = true ↔ a = b) ∧
    (∀ a : ModelInfo, ModelInfo.operator_eq a a = true) ∧
    (∀ a b : ModelInfo, ModelInfo.operator_eq a b = true → ModelInfo.operator_eq b a = true) ∧
    (∀ a b c : ModelInfo, ModelInfo.operator_eq a b = true → ModelInfo.operator_eq b c = true →
      ModelInfo.operator_eq a c = true) := by
  refine ⟨?_, operator_eq_iff_eq, ?_, ?_, ?_⟩
  · intro a b
    rw [operator_eq_iff_eq]
    constructor
    · intro h
      subst h
      exact ⟨rfl, rfl, rfl, fun _ => Iff.rfl⟩
    · rintro ⟨h1, h2, h3, h4⟩
      have hna : a.model_paths.elems.Nodup := a.model_paths.sorted.imp (fun h => ne_of_lt h)
      have hnb : b.model_paths.elems.Nodup := b.model_paths.sorted.imp (fun h => ne_of_lt h)
      have hperm : a.model_paths.elems.Perm b.model_paths.elems :=
        (List.perm_ext_iff_of_nodup hna hnb).2 h4
      have he := List.eq_of_perm_of_sorted hperm a.model_paths.sorted b.model_paths.sorted
      cases a
      cases b
      simp only at h1 h2 h3 he
      simp only [ModelInfo.mk.injEq]
      exact ⟨std_set_ext he, h2, h3, h1⟩
  · intro a
    exact (operator_eq_iff_eq a a).2 rfl
  · intro a b h
    exact (operator_eq_iff_eq b a).2 ((operator_eq_iff_eq a b).1 h).symm
  · intro a b c h1 h2
    exact (operator_eq_iff_eq a c).2
      (((operator_eq_iff_eq a b).1 h1).trans ((operator_eq_iff_eq b c).1 h2))

end subgraph_dumper
end tools
end ov
